import Mathlib

/-!
Verification development for the matching-engine repository.

Quantities and prices are modelled as exact rationals (`ℚ`); the C++
`double` arithmetic of the source performs only additions, subtractions,
`min`, multiplications and comparisons against the explicit epsilon
`Precision::EPSILON = 1e-9`, all of which are embedded here exactly.

Components modelled, each in its own namespace:
* `Precision`       — src/submission/include/Precision.hpp
* `Submission`      — src/submission/src/OrderBook.cpp (map-based book:
                      matchAgainstSide, restOrderOnBook, removeFromSide,
                      checkAndPublishBBO) and src/submission/include/Types.hpp
* `Core`            — src/src/OrderBook.cpp together with
                      src/submission/include/OrderBook.hpp (vector-based book:
                      matchAgainstBook, placeOrder, cancelById, publishShadow,
                      execute, getSnapshot) and src/submission/include/Type.hpp
* `OldSub`          — src/old-submission/src/TradingEngine.cpp
                      (validateCommon, internalCancel, getOrder)
* `Registry`        — src/submission/src/OrderRegistry.cpp
-/

namespace Precision

/-- Precision.hpp: `inline constexpr double EPSILON = 1e-9`. -/
def EPSILON : ℚ := 1 / 1000000000

/-- Precision.hpp `subtract_or_zero`: `result = target - subtrahend;
target = (result < EPSILON) ? 0.0 : result;` (returns the new target). -/
def subtract_or_zero (target subtrahend : ℚ) : ℚ :=
  if target - subtrahend < EPSILON then 0 else target - subtrahend

/-- Precision.hpp `isEqual`: `|a - b| < EPSILON`. -/
def isEqual (a b : ℚ) : Bool := decide (|a - b| < EPSILON)

/-- `Precision::equal` as used by src/src/OrderBook.cpp; the spec defines
`isEqual(a,b) ≡ |a-b| < EPSILON` and the only Precision header in the
sources implements exactly that, so `equal` is the same test. -/
def equal (a b : ℚ) : Bool := isEqual a b

/-- Precision.hpp `isPositive`: `value >= EPSILON`. -/
def isPositive (value : ℚ) : Bool := decide (EPSILON ≤ value)

/-- Precision.hpp `isZero`: `|val| < EPSILON`. -/
def isZero (val : ℚ) : Bool := decide (|val| < EPSILON)

/-- Precision.hpp `isLess`: `a < b - EPSILON`. -/
def isLess (a b : ℚ) : Bool := decide (a < b - EPSILON)

/-- Precision.hpp `isGreater`: `a > b + EPSILON`. -/
def isGreater (a b : ℚ) : Bool := decide (b + EPSILON < a)

end Precision

namespace Submission

/-- Types.hpp `Side`. -/
inductive Side where
  | BUY
  | SELL
deriving DecidableEq, Repr

/-- Types.hpp `OrderKey` (userId, userOrderId). -/
structure OrderKey where
  userId : ℕ
  userOrderId : ℕ
deriving DecidableEq, Repr

/-- Types.hpp `Order` — a resting entry inside a price level. -/
structure Order where
  userId : ℕ
  userOrderId : ℕ
  price : ℚ
  remainingQuantity : ℚ
deriving DecidableEq, Repr

/-- Types.hpp `PriceLevel`. -/
structure PriceLevel where
  price : ℚ
  totalVolume : ℚ
  orders : List Order
deriving DecidableEq, Repr

/-- Types.hpp `Command` (NEW-order payload; `price = 0` encodes MARKET). -/
structure Command where
  userId : ℕ
  userOrderId : ℕ
  quantity : ℚ
  price : ℚ
  side : Side
deriving DecidableEq, Repr

/-- One `printTrade` record: buyUserId, buyOrderId, sellUserId, sellOrderId,
price, quantity. -/
structure Trade where
  buyUserId : ℕ
  buyOrderId : ℕ
  sellUserId : ℕ
  sellOrderId : ℕ
  price : ℚ
  quantity : ℚ
deriving DecidableEq, Repr

/-- OrderBook.cpp, matchAgainstSide trade emission: the taker's ids go in the
buy columns when the taker buys, else in the sell columns. -/
def printTrade (taker : Command) (maker : Order) (price qty : ℚ) : Trade :=
  match taker.side with
  | .BUY => ⟨taker.userId, taker.userOrderId, maker.userId, maker.userOrderId, price, qty⟩
  | .SELL => ⟨maker.userId, maker.userOrderId, taker.userId, taker.userOrderId, price, qty⟩

/-- Key of a resting entry. -/
def okey (o : Order) : OrderKey := ⟨o.userId, o.userOrderId⟩

/-- Result of the inner (per-level) matching loop of `matchAgainstSide`. -/
structure LevelSweep where
  trades : List Trade
  orders : List Order
  takerQty : ℚ
  volume : ℚ
  removed : List OrderKey
deriving Repr

/-- OrderBook.cpp, matchAgainstSide inner loop over `level.orders`:
while `orderIt != end && isPositive(taker.quantity)` trade
`min(taker.quantity, orderIt->remainingQuantity)` at the maker price,
update taker quantity, entry quantity and level volume through
`subtract_or_zero`, and erase (book and registry) entries whose remaining
quantity is zero. `removed` collects the registry erasures. -/
def matchAtLevel (taker : Command) (makerPrice : ℚ) :
    ℚ → ℚ → List Order → LevelSweep
  | q, v, [] => ⟨[], [], q, v, []⟩
  | q, v, o :: rest =>
    if Precision.isPositive q then
      let tradeQty := min q o.remainingQuantity
      let tr := printTrade taker o makerPrice tradeQty
      let q' := Precision.subtract_or_zero q tradeQty
      let r' := Precision.subtract_or_zero o.remainingQuantity tradeQty
      let v' := Precision.subtract_or_zero v tradeQty
      if Precision.isZero r' then
        let s := matchAtLevel taker makerPrice q' v' rest
        ⟨tr :: s.trades, s.orders, s.takerQty, s.volume, okey o :: s.removed⟩
      else
        let s := matchAtLevel taker makerPrice q' v' rest
        ⟨tr :: s.trades, { o with remainingQuantity := r' } :: s.orders,
          s.takerQty, s.volume, s.removed⟩
    else ⟨[], o :: rest, q, v, []⟩

/-- OrderBook.cpp, matchAgainstSide price-cross check: only applies to
takers with a positive price (LIMIT); a taker buy breaks when the maker
price `isGreater` than its limit, a taker sell when it `isLess`. -/
def crossBreak (taker : Command) (makerPrice : ℚ) : Bool :=
  Precision.isPositive taker.price &&
    (match taker.side with
     | .BUY => Precision.isGreater makerPrice taker.price
     | .SELL => Precision.isLess makerPrice taker.price)

/-- Result of `matchAgainstSide`. -/
structure SideSweep where
  trades : List Trade
  side : List PriceLevel
  takerQty : ℚ
  removed : List OrderKey
deriving Repr

/-- OrderBook.cpp `matchAgainstSide`: outer loop over the maker side in map
iteration order (`begin()` is the best level); consumes levels through
`matchAtLevel`, erases levels left without orders, and stops when the taker
quantity is no longer positive or the price check breaks. (The same code
also stores the last traded price; that field is not needed here.) -/
def matchAgainstSide (taker : Command) :
    ℚ → List PriceLevel → SideSweep
  | q, [] => ⟨[], [], q, []⟩
  | q, lvl :: rest =>
    if Precision.isPositive q then
      if crossBreak taker lvl.price then ⟨[], lvl :: rest, q, []⟩
      else
        let s := matchAtLevel taker lvl.price q lvl.totalVolume lvl.orders
        if s.orders.isEmpty then
          let s2 := matchAgainstSide taker s.takerQty rest
          ⟨s.trades ++ s2.trades, s2.side, s2.takerQty, s.removed ++ s2.removed⟩
        else
          ⟨s.trades, { lvl with totalVolume := s.volume, orders := s.orders } :: rest,
            s.takerQty, s.removed⟩
    else ⟨[], lvl :: rest, q, []⟩

/-- OrderBook.cpp `restOrderOnBook`: `try_emplace` the level keyed by the
command's price (a fresh level starts at volume 0), append the order at the
back of the FIFO list and add the quantity to the level volume. The map key
comparison is exact (`cmp` is the map's strict comparator); the sorted-list
embedding walks past strictly-better keys. -/
def restOrderOnBook (cmp : ℚ → ℚ → Bool) (cmd : Command) :
    List PriceLevel → List PriceLevel
  | [] => [⟨cmd.price, cmd.quantity,
      [⟨cmd.userId, cmd.userOrderId, cmd.price, cmd.quantity⟩]⟩]
  | lvl :: rest =>
    if lvl.price = cmd.price then
      { lvl with
        totalVolume := lvl.totalVolume + cmd.quantity
        orders := lvl.orders ++ [⟨cmd.userId, cmd.userOrderId, cmd.price, cmd.quantity⟩] } :: rest
    else if cmp lvl.price cmd.price then
      lvl :: restOrderOnBook cmp cmd rest
    else
      ⟨cmd.price, cmd.quantity,
        [⟨cmd.userId, cmd.userOrderId, cmd.price, cmd.quantity⟩]⟩ :: lvl :: rest

/-- OrderBook.cpp `removeFromSide`: find the level at the stored price,
subtract the removed entry's remaining quantity from `totalVolume` with a
plain `-=`, erase the entry (the registry iterator points at the entry with
the cancelled key), and prune the level when it empties. When the level or
entry is absent the C++ precondition (a live registry location) is violated;
the embedding leaves the side unchanged in that case. -/
def removeFromSide (key : OrderKey) (price : ℚ) :
    List PriceLevel → List PriceLevel
  | [] => []
  | lvl :: rest =>
    if lvl.price = price then
      match lvl.orders.find? (fun o => decide (okey o = key)) with
      | some e =>
        let orders' := lvl.orders.eraseP (fun o => decide (okey o = key))
        if orders'.isEmpty then rest
        else { lvl with
               totalVolume := lvl.totalVolume - e.remainingQuantity
               orders := orders' } :: rest
      | none => lvl :: rest
    else lvl :: removeFromSide key price rest

/-- Types.hpp `BBO`. -/
structure BBO where
  price : ℚ
  volume : ℚ
deriving DecidableEq, Repr

/-- Types.hpp `BBO::operator!=`: epsilon-safe inequality. -/
def BBO.neq (a b : BBO) : Bool :=
  !Precision.isEqual a.price b.price || !Precision.isEqual a.volume b.volume

/-- OrderBook.cpp `checkAndPublishBBO`, top-of-book extraction: the sentinel
`{-1.0, 0.0}` for an empty side, else the best level's price and volume. -/
def currentBBO (side : List PriceLevel) : BBO :=
  match side with
  | [] => ⟨-1, 0⟩
  | lvl :: _ => ⟨lvl.price, lvl.totalVolume⟩

/-- OrderBook.cpp `checkAndPublishBBO`, publish decision per side:
`current.price != lastBBO.price || current.volume != lastBBO.volume` —
raw floating-point inequality on the members, not `BBO::operator!=`. -/
def bboEmit (current last : BBO) : Bool :=
  decide (current.price ≠ last.price) || decide (current.volume ≠ last.volume)

/-- Sum of the remaining quantities of a level's entries. -/
def sumRem (orders : List Order) : ℚ :=
  (orders.map Order.remainingQuantity).sum

/-- The §8 level-volume invariant, epsilon form. -/
def levelNear (lvl : PriceLevel) : Prop :=
  |lvl.totalVolume - sumRem lvl.orders| < Precision.EPSILON

/-- Exact form of the level-volume invariant. -/
def levelExact (lvl : PriceLevel) : Prop :=
  lvl.totalVolume = sumRem lvl.orders

/-- Maker key of an emitted trade: the non-taker column pair. -/
def makerKey (takerSide : Side) (t : Trade) : OrderKey :=
  match takerSide with
  | .BUY => ⟨t.sellUserId, t.sellOrderId⟩
  | .SELL => ⟨t.buyUserId, t.buyOrderId⟩

/-- Maker-side price order: a taker BUY sweeps the asks (ascending prices),
a taker SELL sweeps the bids (descending prices). -/
def sideOrd (takerSide : Side) (a b : ℚ) : Prop :=
  match takerSide with
  | .BUY => a < b
  | .SELL => b < a

instance (s : Side) (a b : ℚ) : Decidable (sideOrd s a b) := by
  cases s <;> simp only [sideOrd] <;> infer_instance

end Submission

namespace Core

/-- Type.hpp `Side`. -/
inductive Side where
  | BUY
  | SELL
deriving DecidableEq, Repr

/-- Type.hpp `OrderType`. -/
inductive OrderType where
  | LIMIT
  | MARKET
deriving DecidableEq, Repr

/-- Type.hpp `OrderStatus`. -/
inductive OrderStatus where
  | ACTIVE
  | FILLED
  | CANCELLED
deriving DecidableEq, Repr

/-- Type.hpp `Order` (the "fat" source of truth behind the shared pointer). -/
structure Order where
  orderID : ℕ
  price : ℚ
  originalQuantity : ℚ
  remainingQuantity : ℚ
  cumulativeCost : ℚ
  side : Side
  type : OrderType
  status : OrderStatus
deriving DecidableEq, Repr

/-- Type.hpp `OrderEntry`: per-level remaining quantity plus the fat order. -/
structure OrderEntry where
  remainingQuantity : ℚ
  fatOrder : Order
deriving DecidableEq, Repr

/-- Type.hpp `PriceLevel` (vector-book variant). -/
structure PriceLevel where
  price : ℚ
  totalVolume : ℚ
  entries : List OrderEntry
deriving DecidableEq, Repr

/-- Type.hpp `OrderLocation`: the stable price/side recorded per order id
(the list-iterator component is recovered by searching the level for the
id, which is what dereferencing the stored iterator yields). -/
structure OrderLocation where
  price : ℚ
  side : Side
deriving DecidableEq, Repr

/-- Type.hpp `BookLevel`. -/
structure BookLevel where
  price : ℚ
  quantity : ℚ
deriving DecidableEq, Repr

/-- Type.hpp `ShadowBuffer`. -/
structure ShadowBuffer where
  bids : List BookLevel
  asks : List BookLevel
  sequence : ℕ
deriving DecidableEq, Repr

/-- Type.hpp `FillRecord`. -/
structure FillRecord where
  executionId : ℕ
  price : ℚ
  quantity : ℚ
  takerOrderId : ℕ
  makerOrderId : ℕ
deriving DecidableEq, Repr

/-- Type.hpp `MatchResult`. -/
structure MatchResult where
  takerOrderId : ℕ
  remainingQuantity : ℚ
  fills : List FillRecord
deriving DecidableEq, Repr

/-- Type.hpp `OrderBookSnapshot` (symbol omitted: one book is modelled). -/
structure OrderBookSnapshot where
  bids : List BookLevel
  asks : List BookLevel
  updateSeq : ℕ
deriving DecidableEq, Repr

/-- OrderBook.hpp: the per-symbol book state — two sorted level vectors, the
id-to-location index, the shadow buffer and the last matched price. -/
structure OrderBook where
  bids : List PriceLevel
  asks : List PriceLevel
  idToLocation : ℕ → Option OrderLocation
  shadow : ShadowBuffer
  lastMatchedPrice : ℚ

/-- OrderBook.cpp, the `lower_bound` comparator used by placeOrder,
getRemainingQty and cancelById: `lvl.price > p` on the BUY side
(descending), `lvl.price < p` on the SELL side (ascending). -/
def levelBefore (side : Side) (lvlPrice p : ℚ) : Bool :=
  match side with
  | .BUY => decide (p < lvlPrice)
  | .SELL => decide (lvlPrice < p)

/-- Result of the inner entry loop of `matchAgainstBook`. -/
structure InnerOut where
  fills : List FillRecord
  entries : List OrderEntry
  taker : Order
  volume : ℚ
  locs : ℕ → Option OrderLocation
  nextExecId : ℕ

/-- OrderBook.hpp `matchAgainstBook`, inner loop over `level.entries`:
while entries remain and the taker quantity `isPositive`, record a fill of
`min(taker.remaining, entry.remaining)` at the level price, update entry,
fat order and taker through `subtract_or_zero`, accrue cumulative cost,
mark fully-consumed makers FILLED with a hard zero remainder, and erase
them from the level and from `idToLocation`. -/
def matchEntries (levelPrice : ℚ) (taker : Order) (v : ℚ)
    (locs : ℕ → Option OrderLocation) (execId : ℕ) :
    List OrderEntry → InnerOut
  | [] => ⟨[], [], taker, v, locs, execId⟩
  | e :: rest =>
    if Precision.isPositive taker.remainingQuantity then
      let matchQty := min taker.remainingQuantity e.remainingQuantity
      let fill : FillRecord := ⟨execId, levelPrice, matchQty, taker.orderID, e.fatOrder.orderID⟩
      let er := Precision.subtract_or_zero e.remainingQuantity matchQty
      let fat0 := { e.fatOrder with
        remainingQuantity := Precision.subtract_or_zero e.fatOrder.remainingQuantity matchQty
        cumulativeCost := e.fatOrder.cumulativeCost + matchQty * levelPrice }
      let fat1 := if Precision.isZero er then
          { fat0 with status := .FILLED, remainingQuantity := 0 }
        else fat0
      let taker' := { taker with
        remainingQuantity := Precision.subtract_or_zero taker.remainingQuantity matchQty
        cumulativeCost := taker.cumulativeCost + matchQty * levelPrice }
      let v' := Precision.subtract_or_zero v matchQty
      if Precision.isZero er then
        let locs' := fun id => if id = e.fatOrder.orderID then none else locs id
        let s := matchEntries levelPrice taker' v' locs' (execId + 1) rest
        ⟨fill :: s.fills, s.entries, s.taker, s.volume, s.locs, s.nextExecId⟩
      else
        let s := matchEntries levelPrice taker' v' locs (execId + 1) rest
        ⟨fill :: s.fills, ⟨er, fat1⟩ :: s.entries, s.taker, s.volume, s.locs, s.nextExecId⟩
    else ⟨[], e :: rest, taker, v, locs, execId⟩

/-- OrderBook.hpp `matchAgainstBook`, price-cross break: LIMIT takers stop
at the first level whose price is strictly beyond the limit and not
epsilon-equal to it (`levelPrice > price && !equal(...)` for a buy,
symmetrically for a sell). MARKET takers never break. -/
def crossStop (taker : Order) (levelPrice : ℚ) : Bool :=
  decide (taker.type = OrderType.LIMIT) &&
    (match taker.side with
     | .BUY => decide (taker.price < levelPrice) && !Precision.equal levelPrice taker.price
     | .SELL => decide (levelPrice < taker.price) && !Precision.equal levelPrice taker.price)

/-- Result of `matchAgainstBook`. -/
structure Sweep where
  fills : List FillRecord
  side : List PriceLevel
  taker : Order
  locs : ℕ → Option OrderLocation
  nextExecId : ℕ
  lastPrice : ℚ

/-- OrderBook.hpp `matchAgainstBook`, outer loop over the target side
(front of the sorted vector is the best level): consume the level through
`matchEntries`, store the level price as the last matched price, erase the
level if it emptied, otherwise break. -/
def matchAgainstBook (taker : Order) (locs : ℕ → Option OrderLocation)
    (execId : ℕ) (last : ℚ) : List PriceLevel → Sweep
  | [] => ⟨[], [], taker, locs, execId, last⟩
  | lvl :: rest =>
    if Precision.isPositive taker.remainingQuantity then
      if crossStop taker lvl.price then ⟨[], lvl :: rest, taker, locs, execId, last⟩
      else
        let inn := matchEntries lvl.price taker lvl.totalVolume locs execId lvl.entries
        if inn.entries.isEmpty then
          let s := matchAgainstBook inn.taker inn.locs inn.nextExecId lvl.price rest
          ⟨inn.fills ++ s.fills, s.side, s.taker, s.locs, s.nextExecId, s.lastPrice⟩
        else
          ⟨inn.fills, { lvl with totalVolume := inn.volume, entries := inn.entries } :: rest,
            inn.taker, inn.locs, inn.nextExecId, lvl.price⟩
    else ⟨[], lvl :: rest, taker, locs, execId, last⟩

/-- OrderBook.cpp `placeOrder`, per-side part: binary-search the insertion
point (`lower_bound` with `levelBefore`), reuse the level found there when
its price is `Precision::equal` to the order's, otherwise insert a fresh
level (volume 0) at that point; then add the remaining quantity to the
level volume and append the entry at the back of the FIFO. -/
def placeSide (o : Order) : List PriceLevel → List PriceLevel
  | [] => [⟨o.price, o.remainingQuantity, [⟨o.remainingQuantity, o⟩]⟩]
  | lvl :: rest =>
    if levelBefore o.side lvl.price o.price then lvl :: placeSide o rest
    else if Precision.equal lvl.price o.price then
      { lvl with
        totalVolume := lvl.totalVolume + o.remainingQuantity
        entries := lvl.entries ++ [⟨o.remainingQuantity, o⟩] } :: rest
    else ⟨o.price, o.remainingQuantity, [⟨o.remainingQuantity, o⟩]⟩ :: lvl :: rest

/-- OrderBook.cpp `placeOrder`: place on the order's own side and record
the location in the global index. -/
def placeOrder (bk : OrderBook) (o : Order) : OrderBook :=
  let bk1 := match o.side with
    | .BUY => { bk with bids := placeSide o bk.bids }
    | .SELL => { bk with asks := placeSide o bk.asks }
  { bk1 with idToLocation :=
      fun id => if id = o.orderID then some ⟨o.price, o.side⟩ else bk.idToLocation id }

/-- OrderBook.cpp `cancelById`, per-side part: walk to the `lower_bound`
position for the stored price; if the level there matches within epsilon,
subtract the entry's remaining quantity from the level volume with
`subtract_or_zero`, erase the entry, prune the level if it emptied, and
return the removed quantity. -/
def cancelSide (s : Side) (p : ℚ) (id : ℕ) :
    List PriceLevel → Option (ℚ × List PriceLevel)
  | [] => none
  | lvl :: rest =>
    if levelBefore s lvl.price p then
      match cancelSide s p id rest with
      | some (q, rest') => some (q, lvl :: rest')
      | none => none
    else if Precision.equal lvl.price p then
      match lvl.entries.find? (fun e => decide (e.fatOrder.orderID = id)) with
      | some e =>
        let entries' := lvl.entries.eraseP (fun x => decide (x.fatOrder.orderID = id))
        if entries'.isEmpty then some (e.remainingQuantity, rest)
        else some (e.remainingQuantity,
          { lvl with
            totalVolume := Precision.subtract_or_zero lvl.totalVolume e.remainingQuantity
            entries := entries' } :: rest)
      | none => none
    else none

/-- OrderBook.cpp `cancelById`: resolve the stored location, remove the
entry from its level and the id from the global index, and return the
removed quantity. The shadow buffer is not touched. -/
def cancelById (bk : OrderBook) (id : ℕ) : Option (ℚ × OrderBook) :=
  match bk.idToLocation id with
  | none => none
  | some loc =>
    let side := match loc.side with
      | .BUY => bk.bids
      | .SELL => bk.asks
    match cancelSide loc.side loc.price id side with
    | none => none
    | some (q, side') =>
      let bk1 := match loc.side with
        | .BUY => { bk with bids := side' }
        | .SELL => { bk with asks := side' }
      some (q, { bk1 with idToLocation :=
        fun x => if x = id then none else bk.idToLocation x })

/-- OrderBook.cpp `getRemainingQty`: resolve the location, binary-search
the level, check its price within epsilon, and read the entry's remaining
quantity (the stored list iterator dereferences to the entry carrying the
order's id). -/
def getRemainingQty (bk : OrderBook) (id : ℕ) : Option ℚ :=
  match bk.idToLocation id with
  | none => none
  | some loc =>
    let side := match loc.side with
      | .BUY => bk.bids
      | .SELL => bk.asks
    match side.dropWhile (fun lvl => levelBefore loc.side lvl.price loc.price) with
    | [] => none
    | lvl :: _ =>
      if Precision.equal lvl.price loc.price then
        match lvl.entries.find? (fun e => decide (e.fatOrder.orderID = id)) with
        | some e => some e.remainingQuantity
        | none => none
      else none

/-- Level-to-shadow projection used by `publishShadow`. -/
def toBookLevel (l : PriceLevel) : BookLevel := ⟨l.price, l.totalVolume⟩

/-- OrderBook.cpp `publishShadow`: bump the sequence and mirror both live
sides into the shadow buffer by a linear pass. -/
def publishShadow (bk : OrderBook) : OrderBook :=
  { bk with shadow :=
      ⟨bk.bids.map toBookLevel, bk.asks.map toBookLevel,
       bk.shadow.sequence + 1⟩ }

/-- OrderBook.cpp `execute`: match against the opposite side; a positive
residual is placed when the taker is LIMIT and marked CANCELLED (remainder
untouched) when it is MARKET; otherwise the taker is FILLED with its
remainder snapped to zero. Finally refresh the shadow and report the
result. Returns (book, taker, result, next execution id). -/
def execute (bk : OrderBook) (taker : Order) (nextExecId : ℕ) :
    OrderBook × Order × MatchResult × ℕ :=
  let sw := match taker.side with
    | .BUY => matchAgainstBook taker bk.idToLocation nextExecId bk.lastMatchedPrice bk.asks
    | .SELL => matchAgainstBook taker bk.idToLocation nextExecId bk.lastMatchedPrice bk.bids
  let bk1 := match taker.side with
    | .BUY => { bk with
        asks := sw.side
        idToLocation := sw.locs
        lastMatchedPrice := sw.lastPrice }
    | .SELL => { bk with
        bids := sw.side
        idToLocation := sw.locs
        lastMatchedPrice := sw.lastPrice }
  let t := sw.taker
  let p := if Precision.isPositive t.remainingQuantity then
      if t.type = OrderType.LIMIT then (placeOrder bk1 t, t)
      else (bk1, { t with status := .CANCELLED })
    else (bk1, { t with status := .FILLED, remainingQuantity := 0 })
  let bk3 := publishShadow p.1
  (bk3, p.2, ⟨taker.orderID, p.2.remainingQuantity, sw.fills⟩, sw.nextExecId)

/-- OrderBook.cpp `getSnapshot`: copy the top `min(depth, size)` levels of
each shadow side together with the shadow sequence number. -/
def getSnapshot (bk : OrderBook) (depth : ℕ) : OrderBookSnapshot :=
  ⟨bk.shadow.bids.take depth, bk.shadow.asks.take depth, bk.shadow.sequence⟩

end Core

namespace OldSub

/-- Type.hpp `EngineStatusCode`. -/
inductive EngineStatusCode where
  | OK
  | VALIDATION_FAILURE
  | ORDER_ID_NOT_FOUND
  | SYMBOL_NOT_FOUND
  | TAG_NOT_FOUND
  | DUPLICATE_TAG
  | PRICE_OUT_OF_BAND
  | ALREADY_TERMINAL
deriving DecidableEq, Repr

/-- The configuration constants consulted by `validateCommon`. Their
definitions live in a Constants header that is not part of the sources
(only `Config::` uses appear), so they are carried as parameters. -/
structure Config where
  MAX_ORDER_QTY : ℚ
  MAX_TAG_SIZE : ℕ
  MAX_GLOBAL_ORDERS : ℕ
  MIN_ORDER_PRICE : ℚ
  MAX_ORDER_PRICE : ℚ
  MAX_PRICE_LEVELS : ℕ
  PRICE_BAND_PERCENT : ℚ

/-- The two book observations `validateCommon` makes through `tryGetBook`:
`getPriceLevelCount()` and `getLastPrice()`. -/
structure BookView where
  priceLevelCount : ℕ
  lastPrice : ℚ
deriving DecidableEq, Repr

/-- TradingEngine.cpp `validateCommon`: the checks in source order —
quantity (`quantity <= 0 || quantity > MAX_ORDER_QTY`), tag length, empty
symbol, global registry capacity; then for priced (LIMIT) orders the
static price range, and, when the symbol's book exists, the level-count
saturation check followed by the price-band check (band only applies when
`lastPrice > 0`). The first failing check returns its error; the function
reads state and mutates nothing. -/
def validateCommon (cfg : Config) (quantity : ℚ) (tagSize : ℕ)
    (symbolEmpty : Bool) (registrySize : ℕ) (price : Option ℚ)
    (book : Option BookView) : EngineStatusCode × String :=
  if quantity ≤ 0 ∨ cfg.MAX_ORDER_QTY < quantity then
    (.VALIDATION_FAILURE, "Invalid quantity")
  else if cfg.MAX_TAG_SIZE < tagSize then
    (.VALIDATION_FAILURE, "Tag too long")
  else if symbolEmpty then
    (.VALIDATION_FAILURE, "Invalid symbol")
  else if cfg.MAX_GLOBAL_ORDERS ≤ registrySize then
    (.VALIDATION_FAILURE, "Engine at max capacity")
  else
    match price with
    | none => (.OK, "Validated")
    | some p =>
      if p < cfg.MIN_ORDER_PRICE ∨ cfg.MAX_ORDER_PRICE < p then
        (.VALIDATION_FAILURE, "Price out of range")
      else
        match book with
        | none => (.OK, "Validated")
        | some b =>
          if cfg.MAX_PRICE_LEVELS ≤ b.priceLevelCount then
            (.VALIDATION_FAILURE, "Orderbook too fragmented")
          else if 0 < b.lastPrice ∧
              (b.lastPrice + b.lastPrice * cfg.PRICE_BAND_PERCENT < p ∨
               p < b.lastPrice - b.lastPrice * cfg.PRICE_BAND_PERCENT) then
            (.PRICE_OUT_OF_BAND, "Price outside banding limits")
          else (.OK, "Validated")

/-- The registry view of a Type.hpp `Order` needed by the cancel and
lookup paths. -/
structure EngOrder where
  orderID : ℕ
  symbol : String
  status : Core.OrderStatus
  remainingQuantity : ℚ
deriving DecidableEq, Repr

/-- Type.hpp `Order::isFinished`: status is not ACTIVE. -/
def isFinished (o : EngOrder) : Bool :=
  decide (o.status ≠ Core.OrderStatus.ACTIVE)

/-- TradingEngine state: `idRegistry` (id → shared order) and
`symbolBooks` (symbol → book). -/
structure TradingEngine where
  idRegistry : ℕ → Option EngOrder
  symbolBooks : String → Option Core.OrderBook

/-- TradingEngine.cpp `internalCancel`: unknown id fails ID-missing; a
finished order fails ALREADY_TERMINAL; otherwise the symbol's book cancels
by id, the order is marked CANCELLED with the removed quantity, and the
order object stays in `idRegistry` (no erase). A cancel the book cannot
serve falls through to "Not active in book". -/
def internalCancel (st : TradingEngine) (orderId : ℕ) :
    TradingEngine × EngineStatusCode × String :=
  match st.idRegistry orderId with
  | none => (st, .ORDER_ID_NOT_FOUND, "ID missing")
  | some ord =>
    if isFinished ord then (st, .ALREADY_TERMINAL, "Already terminal")
    else
      match st.symbolBooks ord.symbol with
      | some bk =>
        match Core.cancelById bk orderId with
        | some qbk =>
          let ord' := { ord with
            status := Core.OrderStatus.CANCELLED
            remainingQuantity := qbk.1 }
          ({ st with
              idRegistry := fun x => if x = orderId then some ord' else st.idRegistry x
              symbolBooks := fun s => if s = ord.symbol then some qbk.2 else st.symbolBooks s },
            .OK, "Cancelled")
        | none => (st, .ORDER_ID_NOT_FOUND, "Not active in book")
      | none => (st, .ORDER_ID_NOT_FOUND, "Not active in book")

/-- TradingEngine.cpp `getOrder`: unknown id fails ID-missing; otherwise
return the shared order, first reconciling `remainingQuantity` from the
live book when the order is still ACTIVE (the "handshake"). -/
def getOrder (st : TradingEngine) (orderId : ℕ) :
    TradingEngine × EngineStatusCode × String × Option EngOrder :=
  match st.idRegistry orderId with
  | none => (st, .ORDER_ID_NOT_FOUND, "ID missing", none)
  | some ord =>
    if isFinished ord then (st, .OK, "Success", some ord)
    else
      match st.symbolBooks ord.symbol with
      | some bk =>
        match Core.getRemainingQty bk orderId with
        | some q =>
          let ord' := { ord with remainingQuantity := q }
          ({ st with
              idRegistry := fun x => if x = orderId then some ord' else st.idRegistry x },
            .OK, "Success", some ord')
        | none => (st, .OK, "Success", some ord)
      | none => (st, .OK, "Success", some ord)

end OldSub

namespace Registry

/-- OrderRegistry.hpp `OrderLocation` (id, symbol, tag). -/
structure OrderLocation where
  orderId : ℕ
  symbol : String
  tag : String
deriving DecidableEq, Repr

/-- OrderRegistry state: the four unordered maps. -/
structure OrderRegistry where
  idToSymbol : ℕ → Option String
  idToTag : ℕ → Option String
  tagToId : String → Option ℕ
  tagToSymbol : String → Option String

/-- OrderRegistry.cpp `registerOrder`: unconditional assignment into all
four maps; an existing tag is rebound to the new id. -/
def registerOrder (r : OrderRegistry) (id : ℕ) (tag symbol : String) :
    OrderRegistry :=
  { idToSymbol := fun x => if x = id then some symbol else r.idToSymbol x
    idToTag := fun x => if x = id then some tag else r.idToTag x
    tagToId := fun t => if t = tag then some id else r.tagToId t
    tagToSymbol := fun t => if t = tag then some symbol else r.tagToSymbol t }

/-- OrderRegistry.cpp `unregisterById`: when the id is known, erase the id
from both id-keyed maps and erase the id's tag from both tag-keyed maps —
unconditionally, with no check that `tagToId_[tag]` still points to this
id. (`idToSymbol_[id]` is an `operator[]` read, defaulting to empty.) -/
def unregisterById (r : OrderRegistry) (id : ℕ) :
    Option OrderLocation × OrderRegistry :=
  match r.idToTag id with
  | none => (none, r)
  | some tag =>
    let symbol := (r.idToSymbol id).getD ""
    (some ⟨id, symbol, tag⟩,
     { idToSymbol := fun x => if x = id then none else r.idToSymbol x
       idToTag := fun x => if x = id then none else r.idToTag x
       tagToId := fun t => if t = tag then none else r.tagToId t
       tagToSymbol := fun t => if t = tag then none else r.tagToSymbol t })

/-- OrderRegistry.cpp `getLocationById` (`idToSymbol_.at(id)` read). -/
def getLocationById (r : OrderRegistry) (id : ℕ) : Option OrderLocation :=
  match r.idToTag id with
  | none => none
  | some tag => some ⟨id, (r.idToSymbol id).getD "", tag⟩

/-- OrderRegistry.cpp `getLocationByTag` (`tagToSymbol_.at(tag)` read). -/
def getLocationByTag (r : OrderRegistry) (tag : String) : Option OrderLocation :=
  match r.tagToId tag with
  | none => none
  | some id => some ⟨id, (r.tagToSymbol tag).getD "", tag⟩

end Registry

namespace Core

/-- The opposite-side sweep performed at the top of `execute`: BUY takers
match against the asks, SELL takers against the bids. -/
def oppositeSweep (bk : OrderBook) (taker : Order) (eid : ℕ) : Sweep :=
  match taker.side with
  | .BUY => matchAgainstBook taker bk.idToLocation eid bk.lastMatchedPrice bk.asks
  | .SELL => matchAgainstBook taker bk.idToLocation eid bk.lastMatchedPrice bk.bids

/-- The side an incoming taker matches against. -/
def oppositeSide (bk : OrderBook) (taker : Order) : List PriceLevel :=
  match taker.side with
  | .BUY => bk.asks
  | .SELL => bk.bids

/-- The side a residual LIMIT order rests on. -/
def ownSide (bk : OrderBook) (taker : Order) : List PriceLevel :=
  match taker.side with
  | .BUY => bk.bids
  | .SELL => bk.asks

end Core

/-- Concrete book fixture: one bid level at 100 holding order 1 for 5. -/
def C6book : Core.OrderBook :=
  ⟨[⟨100, 5, [⟨5, ⟨1, 100, 5, 5, 0, .BUY, .LIMIT, .ACTIVE⟩⟩]⟩], [],
    fun x => if x = 1 then some ⟨100, .BUY⟩ else none, ⟨[], [], 0⟩, 0⟩

/-- Concrete engine fixture: order 1 is ACTIVE on "IBM" with quantity 5,
resting in `C6book`. -/
def C6engine : OldSub.TradingEngine :=
  ⟨fun x => if x = 1 then some ⟨1, "IBM", .ACTIVE, 5⟩ else none,
   fun s => if s = "IBM" then some C6book else none⟩

/-- EPSILON is positive. -/
theorem epsilon_pos : (0 : ℚ) < Precision.EPSILON := by
  norm_num [Precision.EPSILON]

/-- Claim C10: for all inputs, `subtract_or_zero` leaves the target either
exactly 0 or at least EPSILON — any mathematical result below EPSILON,
including a negative one, is snapped to 0 — so the result is never
negative and never positive sub-epsilon dust. -/
theorem C10_subtract_or_zero_floor (t s : ℚ) :
    (Precision.subtract_or_zero t s = 0 ∨
      Precision.EPSILON ≤ Precision.subtract_or_zero t s) ∧
    0 ≤ Precision.subtract_or_zero t s := by
  unfold Precision.subtract_or_zero
  by_cases h : t - s < Precision.EPSILON
  · simp [h]
  · push_neg at h
    have he := epsilon_pos
    rw [if_neg (not_lt.mpr h)]
    exact ⟨Or.inr h, by linarith⟩

/-- Claim C9: `checkAndPublishBBO` decides publication with raw member
inequality (`current.price != lastBBO.price || current.volume !=
lastBBO.volume`), not the epsilon-safe `BBO::operator!=`; at a top of book
differing from the last published one by less than EPSILON the code emits
a delta although the epsilon-safe comparison reports equality, refuting
the claimed "no notification within EPSILON" direction. -/
theorem C9_raw_bbo_emit_within_epsilon :
    Submission.bboEmit
        (Submission.currentBBO
          [⟨10 + 1 / 10000000000, 1, [⟨1, 1, 10 + 1 / 10000000000, 1⟩]⟩])
        ⟨10, 1⟩ = true ∧
    Submission.BBO.neq
        (Submission.currentBBO
          [⟨10 + 1 / 10000000000, 1, [⟨1, 1, 10 + 1 / 10000000000, 1⟩]⟩])
        ⟨10, 1⟩ = false := by
  constructor
  · norm_num [Submission.bboEmit, Submission.currentBBO]
  · norm_num [Submission.BBO.neq, Submission.currentBBO, Precision.isEqual,
      Precision.EPSILON, abs_lt]

/-- `publishShadow` leaves the live sides untouched. -/
theorem publishShadow_bids (B : Core.OrderBook) :
    (Core.publishShadow B).bids = B.bids := rfl

/-- `publishShadow` leaves the live sides untouched (ask side). -/
theorem publishShadow_asks (B : Core.OrderBook) :
    (Core.publishShadow B).asks = B.asks := rfl

/-- `placeOrder` does not touch the shadow buffer. -/
theorem placeOrder_shadow (bk : Core.OrderBook) (o : Core.Order) :
    (Core.placeOrder bk o).shadow = bk.shadow := by
  cases h : o.side <;> simp [Core.placeOrder, h]

/-- `execute` always ends by publishing the shadow of the final live book,
whose shadow sequence number was still the incoming one. -/
theorem execute_is_publishShadow (bk : Core.OrderBook) (taker : Core.Order)
    (eid : ℕ) :
    ∃ B : Core.OrderBook, (Core.execute bk taker eid).1 = Core.publishShadow B ∧
      B.shadow = bk.shadow := by
  cases hs : taker.side <;>
    simp only [Core.execute, hs] <;>
    split
  case BUY.isTrue h =>
    split
    · exact ⟨_, rfl, by
        rw [placeOrder_shadow]⟩
    · exact ⟨_, rfl, rfl⟩
  case BUY.isFalse h => exact ⟨_, rfl, rfl⟩
  case SELL.isTrue h =>
    split
    · exact ⟨_, rfl, by
        rw [placeOrder_shadow]⟩
    · exact ⟨_, rfl, rfl⟩
  case SELL.isFalse h => exact ⟨_, rfl, rfl⟩

/-- Claim C8 (amended): `getSnapshot(depth)` returns the shadow sequence
number together with the top `min(depth, size)` levels of each side as
mirrored from the live book by the refresh at the end of the last
`execute`; `depth = 0` therefore yields empty sides, not all levels. -/
theorem C8_getSnapshot_top_depth (bk : Core.OrderBook) (taker : Core.Order)
    (eid : ℕ) (depth : ℕ) :
    Core.getSnapshot (Core.execute bk taker eid).1 depth =
      ⟨((Core.execute bk taker eid).1.bids.map Core.toBookLevel).take depth,
       ((Core.execute bk taker eid).1.asks.map Core.toBookLevel).take depth,
       bk.shadow.sequence + 1⟩ := by
  obtain ⟨B, hB, hseq⟩ := execute_is_publishShadow bk taker eid
  rw [hB, publishShadow_bids, publishShadow_asks]
  simp [Core.getSnapshot, Core.publishShadow, hseq]

/-- Claim C8, counterexample to the claim as stated: after an `execute`
that leaves one resting bid, `GetSnapshot` at depth 0 returns no levels at
all even though the shadow holds a bid level. -/
theorem C8_depth0_counterexample :
    (Core.getSnapshot
        (Core.execute ⟨[], [], fun _ => none, ⟨[], [], 0⟩, 0⟩
          ⟨5, 10, 1, 1, 0, .BUY, .LIMIT, .ACTIVE⟩ 0).1 0).bids = [] ∧
    (Core.execute ⟨[], [], fun _ => none, ⟨[], [], 0⟩, 0⟩
        ⟨5, 10, 1, 1, 0, .BUY, .LIMIT, .ACTIVE⟩ 0).1.shadow.bids ≠ [] := by
  constructor
  · norm_num [Core.execute, Core.matchAgainstBook, Core.getSnapshot,
      Core.publishShadow, Core.placeOrder, Core.placeSide, Core.toBookLevel,
      Precision.isPositive, Precision.EPSILON]
  · norm_num [Core.execute, Core.matchAgainstBook, Core.publishShadow,
      Core.placeOrder, Core.placeSide, Core.toBookLevel,
      Precision.isPositive, Precision.EPSILON]

/-- Claim C4, counterexample to the claim as stated: placing a
non-matching LIMIT buy on an empty book and cancelling it by id leaves the
shadow sequence at 1, not at 0 + 2 — `cancelById` never refreshes the
shadow. -/
theorem C4_seq_counterexample :
    (Core.cancelById
        (Core.execute ⟨[], [], fun _ => none, ⟨[], [], 0⟩, 0⟩
          ⟨5, 10, 1, 1, 0, .BUY, .LIMIT, .ACTIVE⟩ 0).1 5).map
        (fun r => r.2.shadow.sequence) = some 1 ∧
    (Core.cancelById
        (Core.execute ⟨[], [], fun _ => none, ⟨[], [], 0⟩, 0⟩
          ⟨5, 10, 1, 1, 0, .BUY, .LIMIT, .ACTIVE⟩ 0).1 5).map
        (fun r => r.2.shadow.sequence) ≠ some 2 := by
  constructor
  · norm_num [Core.execute, Core.matchAgainstBook, Core.publishShadow,
      Core.placeOrder, Core.placeSide, Core.cancelById, Core.cancelSide,
      Core.levelBefore, Core.toBookLevel, List.find?, List.eraseP,
      Precision.isPositive, Precision.equal, Precision.isEqual,
      Precision.subtract_or_zero, Precision.EPSILON]
  · norm_num [Core.execute, Core.matchAgainstBook, Core.publishShadow,
      Core.placeOrder, Core.placeSide, Core.cancelById, Core.cancelSide,
      Core.levelBefore, Core.toBookLevel, List.find?, List.eraseP,
      Precision.isPositive, Precision.equal, Precision.isEqual,
      Precision.subtract_or_zero, Precision.EPSILON]

/-- Claim C7 (amended): after a tag rebind, the older order is still
reachable by identifier, but `unregisterById(oldId)` erases the tag
mapping unconditionally — there is no check that it still points to the
unregistered id — so it orphans the newer order's tag mapping (tag lookups
then fail), while the newer order itself stays reachable by identifier. -/
theorem C7_unregister_orphans_tag (r r2 : Registry.OrderRegistry)
    (id1 id2 : ℕ) (tag sym1 sym2 : String) (hne : id1 ≠ id2)
    (hr : r2 = Registry.registerOrder (Registry.registerOrder r id1 tag sym1) id2 tag sym2) :
    Registry.getLocationById r2 id1 = some ⟨id1, sym1, tag⟩ ∧
    (Registry.unregisterById r2 id1).2.tagToId tag = none ∧
    Registry.getLocationByTag (Registry.unregisterById r2 id1).2 tag = none ∧
    Registry.getLocationById (Registry.unregisterById r2 id1).2 id2 = some ⟨id2, sym2, tag⟩ := by
  subst hr
  simp [Registry.registerOrder, Registry.unregisterById, Registry.getLocationById,
    Registry.getLocationByTag, Option.getD, hne, Ne.symm hne]

/-- Claim C7, witness for the amended theorem at a concrete registry. -/
theorem C7_unregister_orphans_tag_witness :
    (1 : ℕ) ≠ 2 ∧
    (Registry.getLocationById
        (Registry.registerOrder
          (Registry.registerOrder ⟨fun _ => none, fun _ => none, fun _ => none, fun _ => none⟩
            1 "T" "A") 2 "T" "B") 1 = some ⟨1, "A", "T"⟩) := by
  refine ⟨by decide, ?_⟩
  exact (C7_unregister_orphans_tag
    ⟨fun _ => none, fun _ => none, fun _ => none, fun _ => none⟩
    (Registry.registerOrder
      (Registry.registerOrder ⟨fun _ => none, fun _ => none, fun _ => none, fun _ => none⟩
        1 "T" "A") 2 "T" "B")
    1 2 "T" "A" "B" (by decide) rfl).1

/-- Claim C7, counterexample to the claim as stated: with tag "T" rebound
from order 1 to order 2, `unregisterById 1` erases the tag mapping even
though it points to 2 — the newer order's tag mapping is not left intact. -/
theorem C7_counterexample :
    (Registry.unregisterById
        (Registry.registerOrder
          (Registry.registerOrder ⟨fun _ => none, fun _ => none, fun _ => none, fun _ => none⟩
            1 "T" "A") 2 "T" "B") 1).2.tagToId "T" = none ∧
    (Registry.unregisterById
        (Registry.registerOrder
          (Registry.registerOrder ⟨fun _ => none, fun _ => none, fun _ => none, fun _ => none⟩
            1 "T" "A") 2 "T" "B") 1).2.tagToId "T" ≠ some 2 := by
  constructor
  · simp [Registry.registerOrder, Registry.unregisterById]
  · simp [Registry.registerOrder, Registry.unregisterById]

/-- Claim C5 (amended): `validateCommon` runs its checks in the fixed
source order — (1) quantity (`quantity <= 0 || quantity > MAX_ORDER_QTY`;
no separate finiteness guard), (2) tag length, (3) symbol present,
(4) global registry capacity, then for priced orders (5) static price
range and, when the book exists, (6) book saturation
(`priceLevelCount >= MAX_PRICE_LEVELS`, with no exception for an existing
level at that price) followed by (7) the band around a positive last
traded price — the first failure winning. All failures except the band one
share the VALIDATION_FAILURE status code and are distinguished only by
message; the band failure alone is PRICE_OUT_OF_BAND. The function only
reads state. -/
theorem C5_validate_order (cfg : OldSub.Config) (q : ℚ) (tagSize : ℕ)
    (se : Bool) (rs : ℕ) (pr : Option ℚ) (bo : Option OldSub.BookView)
    (p : ℚ) (b : OldSub.BookView) :
    ((q ≤ 0 ∨ cfg.MAX_ORDER_QTY < q) →
      OldSub.validateCommon cfg q tagSize se rs pr bo =
        (.VALIDATION_FAILURE, "Invalid quantity")) ∧
    (¬(q ≤ 0 ∨ cfg.MAX_ORDER_QTY < q) → cfg.MAX_TAG_SIZE < tagSize →
      OldSub.validateCommon cfg q tagSize se rs pr bo =
        (.VALIDATION_FAILURE, "Tag too long")) ∧
    (¬(q ≤ 0 ∨ cfg.MAX_ORDER_QTY < q) → ¬cfg.MAX_TAG_SIZE < tagSize → se = true →
      OldSub.validateCommon cfg q tagSize se rs pr bo =
        (.VALIDATION_FAILURE, "Invalid symbol")) ∧
    (¬(q ≤ 0 ∨ cfg.MAX_ORDER_QTY < q) → ¬cfg.MAX_TAG_SIZE < tagSize → se = false →
      cfg.MAX_GLOBAL_ORDERS ≤ rs →
      OldSub.validateCommon cfg q tagSize se rs pr bo =
        (.VALIDATION_FAILURE, "Engine at max capacity")) ∧
    (¬(q ≤ 0 ∨ cfg.MAX_ORDER_QTY < q) → ¬cfg.MAX_TAG_SIZE < tagSize → se = false →
      ¬cfg.MAX_GLOBAL_ORDERS ≤ rs →
      OldSub.validateCommon cfg q tagSize se rs none bo = (.OK, "Validated")) ∧
    (¬(q ≤ 0 ∨ cfg.MAX_ORDER_QTY < q) → ¬cfg.MAX_TAG_SIZE < tagSize → se = false →
      ¬cfg.MAX_GLOBAL_ORDERS ≤ rs → (p < cfg.MIN_ORDER_PRICE ∨ cfg.MAX_ORDER_PRICE < p) →
      OldSub.validateCommon cfg q tagSize se rs (some p) bo =
        (.VALIDATION_FAILURE, "Price out of range")) ∧
    (¬(q ≤ 0 ∨ cfg.MAX_ORDER_QTY < q) → ¬cfg.MAX_TAG_SIZE < tagSize → se = false →
      ¬cfg.MAX_GLOBAL_ORDERS ≤ rs → ¬(p < cfg.MIN_ORDER_PRICE ∨ cfg.MAX_ORDER_PRICE < p) →
      cfg.MAX_PRICE_LEVELS ≤ b.priceLevelCount →
      OldSub.validateCommon cfg q tagSize se rs (some p) (some b) =
        (.VALIDATION_FAILURE, "Orderbook too fragmented")) ∧
    (¬(q ≤ 0 ∨ cfg.MAX_ORDER_QTY < q) → ¬cfg.MAX_TAG_SIZE < tagSize → se = false →
      ¬cfg.MAX_GLOBAL_ORDERS ≤ rs → ¬(p < cfg.MIN_ORDER_PRICE ∨ cfg.MAX_ORDER_PRICE < p) →
      ¬cfg.MAX_PRICE_LEVELS ≤ b.priceLevelCount →
      (0 < b.lastPrice ∧
        (b.lastPrice + b.lastPrice * cfg.PRICE_BAND_PERCENT < p ∨
         p < b.lastPrice - b.lastPrice * cfg.PRICE_BAND_PERCENT)) →
      OldSub.validateCommon cfg q tagSize se rs (some p) (some b) =
        (.PRICE_OUT_OF_BAND, "Price outside banding limits")) ∧
    (¬(q ≤ 0 ∨ cfg.MAX_ORDER_QTY < q) → ¬cfg.MAX_TAG_SIZE < tagSize → se = false →
      ¬cfg.MAX_GLOBAL_ORDERS ≤ rs → ¬(p < cfg.MIN_ORDER_PRICE ∨ cfg.MAX_ORDER_PRICE < p) →
      ¬cfg.MAX_PRICE_LEVELS ≤ b.priceLevelCount →
      ¬(0 < b.lastPrice ∧
        (b.lastPrice + b.lastPrice * cfg.PRICE_BAND_PERCENT < p ∨
         p < b.lastPrice - b.lastPrice * cfg.PRICE_BAND_PERCENT)) →
      OldSub.validateCommon cfg q tagSize se rs (some p) (some b) = (.OK, "Validated")) := by
  refine ⟨?_, ?_, ?_, ?_, ?_, ?_, ?_, ?_, ?_⟩
  · intro h1
    simp [OldSub.validateCommon, h1]
  · intro h1 h2
    simp [OldSub.validateCommon, h1, h2]
  · intro h1 h2 h3
    simp [OldSub.validateCommon, h1, h2, h3]
  · intro h1 h2 h3 h4
    simp [OldSub.validateCommon, h1, h2, h3, h4]
  · intro h1 h2 h3 h4
    simp [OldSub.validateCommon, h1, h2, h3, h4]
  · intro h1 h2 h3 h4 h5
    simp [OldSub.validateCommon, h1, h2, h3, h4, h5]
  · intro h1 h2 h3 h4 h5 h6
    simp [OldSub.validateCommon, h1, h2, h3, h4, h5, h6]
  · intro h1 h2 h3 h4 h5 h6 h7
    simp [OldSub.validateCommon, h1, h2, h3, h4, h5, h6, h7]
  · intro h1 h2 h3 h4 h5 h6 h7
    simp [OldSub.validateCommon, h1, h2, h3, h4, h5, h6, h7]

/-- Claim C5, witness: a non-positive quantity is rejected first with the
"Invalid quantity" validation failure. -/
theorem C5_validate_order_witness :
    OldSub.validateCommon ⟨1000, 10, 100, 1, 1000000, 1, 1⟩ 0 0 false 0 none none =
      (.VALIDATION_FAILURE, "Invalid quantity") :=
  (C5_validate_order ⟨1000, 10, 100, 1, 1000000, 1, 1⟩ 0 0 false 0 none none 0 ⟨0, 0⟩).1
    (Or.inl le_rfl)

/-- Claim C5, counterexample to the claim as stated: with the book
saturated and the price out of band simultaneously, the code rejects with
the saturation error — the saturation check runs before the band check,
not after it, so the first failure is not PRICE_OUT_OF_BAND as the claimed
sequence requires. -/
theorem C5_band_order_counterexample :
    OldSub.validateCommon ⟨1000, 10, 100, 1, 1000000, 1, 1⟩ 5 0 false 0 (some 30)
        (some ⟨1, 10⟩) = (.VALIDATION_FAILURE, "Orderbook too fragmented") ∧
    (OldSub.validateCommon ⟨1000, 10, 100, 1, 1000000, 1, 1⟩ 5 0 false 0 (some 30)
        (some ⟨1, 10⟩)).1 ≠ OldSub.EngineStatusCode.PRICE_OUT_OF_BAND ∧
    ((10 : ℚ) + 10 * 1 < 30) := by
  refine ⟨?_, ?_, by norm_num⟩
  · norm_num [OldSub.validateCommon]
  · norm_num [OldSub.validateCommon]
    decide

/-- The inner matching loop only rewrites the taker's remaining quantity
and cumulative cost; id, price, side and type are preserved. -/
theorem matchEntries_taker_fields (lp : ℚ) (tk : Core.Order) (v : ℚ)
    (locs : ℕ → Option Core.OrderLocation) (eid : ℕ) (es : List Core.OrderEntry) :
    (Core.matchEntries lp tk v locs eid es).taker.side = tk.side ∧
    (Core.matchEntries lp tk v locs eid es).taker.type = tk.type ∧
    (Core.matchEntries lp tk v locs eid es).taker.orderID = tk.orderID ∧
    (Core.matchEntries lp tk v locs eid es).taker.price = tk.price := by
  induction es generalizing tk v locs eid with
  | nil => exact ⟨rfl, rfl, rfl, rfl⟩
  | cons e rest ih =>
    simp only [Core.matchEntries]
    split
    · split
      · exact ih _ _ _ _
      · exact ih _ _ _ _
    · exact ⟨rfl, rfl, rfl, rfl⟩

/-- The outer matching loop preserves the taker's id, price, side, type. -/
theorem matchAgainstBook_taker_fields (tk : Core.Order)
    (locs : ℕ → Option Core.OrderLocation) (eid : ℕ) (last : ℚ)
    (side : List Core.PriceLevel) :
    (Core.matchAgainstBook tk locs eid last side).taker.side = tk.side ∧
    (Core.matchAgainstBook tk locs eid last side).taker.type = tk.type ∧
    (Core.matchAgainstBook tk locs eid last side).taker.orderID = tk.orderID ∧
    (Core.matchAgainstBook tk locs eid last side).taker.price = tk.price := by
  induction side generalizing tk locs eid last with
  | nil => exact ⟨rfl, rfl, rfl, rfl⟩
  | cons lvl rest ih =>
    simp only [Core.matchAgainstBook]
    split
    · split
      · exact ⟨rfl, rfl, rfl, rfl⟩
      · split
        · have h1 := matchEntries_taker_fields lvl.price tk lvl.totalVolume locs eid lvl.entries
          have h2 := ih (Core.matchEntries lvl.price tk lvl.totalVolume locs eid lvl.entries).taker
            (Core.matchEntries lvl.price tk lvl.totalVolume locs eid lvl.entries).locs
            (Core.matchEntries lvl.price tk lvl.totalVolume locs eid lvl.entries).nextExecId
            lvl.price
          exact ⟨h2.1.trans h1.1, h2.2.1.trans h1.2.1, h2.2.2.1.trans h1.2.2.1,
            h2.2.2.2.trans h1.2.2.2⟩
        · exact matchEntries_taker_fields lvl.price tk lvl.totalVolume locs eid lvl.entries
    · exact ⟨rfl, rfl, rfl, rfl⟩

/-- The inner matching loop only erases ids from the location index: an id
absent before is absent after. -/
theorem matchEntries_locs_none (lp : ℚ) (tk : Core.Order) (v : ℚ)
    (locs : ℕ → Option Core.OrderLocation) (eid : ℕ) (es : List Core.OrderEntry)
    (oid : ℕ) (h : locs oid = none) :
    (Core.matchEntries lp tk v locs eid es).locs oid = none := by
  induction es generalizing tk v locs eid with
  | nil => exact h
  | cons e rest ih =>
    simp only [Core.matchEntries]
    split
    · split
      · apply ih
        by_cases he : oid = e.fatOrder.orderID <;> simp [he, h]
      · exact ih _ _ _ _ h
    · exact h

/-- The outer matching loop only erases ids from the location index. -/
theorem matchAgainstBook_locs_none (tk : Core.Order)
    (locs : ℕ → Option Core.OrderLocation) (eid : ℕ) (last : ℚ)
    (side : List Core.PriceLevel) (oid : ℕ) (h : locs oid = none) :
    (Core.matchAgainstBook tk locs eid last side).locs oid = none := by
  induction side generalizing tk locs eid last with
  | nil => exact h
  | cons lvl rest ih =>
    simp only [Core.matchAgainstBook]
    split
    · split
      · exact h
      · split
        · exact ih _ _ _ _ (matchEntries_locs_none _ _ _ _ _ _ _ h)
        · exact matchEntries_locs_none _ _ _ _ _ _ _ h
    · exact h

/-- Claim C3: a MARKET taker whose remaining quantity is still positive
after the matching sweep is marked CANCELLED with its unfilled remainder
preserved on the order object and in the returned result; no placement
happens (the book holds exactly the post-sweep sides, the untouched own
side unchanged), and the order's id is absent from the book's location
registry afterwards; in particular against an empty opposite side the
remainder equals the original quantity and both sides are unchanged. -/
theorem C3_market_residual_cancelled (bk : Core.OrderBook) (taker : Core.Order)
    (eid : ℕ) (hm : taker.type = Core.OrderType.MARKET)
    (hfresh : bk.idToLocation taker.orderID = none)
    (hpos : Precision.isPositive
      (Core.oppositeSweep bk taker eid).taker.remainingQuantity = true) :
    (Core.execute bk taker eid).2.1.status = Core.OrderStatus.CANCELLED ∧
    (Core.execute bk taker eid).2.1.remainingQuantity =
      (Core.oppositeSweep bk taker eid).taker.remainingQuantity ∧
    (Core.execute bk taker eid).2.2.1.remainingQuantity =
      (Core.oppositeSweep bk taker eid).taker.remainingQuantity ∧
    (taker.side = Core.Side.BUY →
      (Core.execute bk taker eid).1.asks = (Core.oppositeSweep bk taker eid).side ∧
      (Core.execute bk taker eid).1.bids = bk.bids) ∧
    (taker.side = Core.Side.SELL →
      (Core.execute bk taker eid).1.bids = (Core.oppositeSweep bk taker eid).side ∧
      (Core.execute bk taker eid).1.asks = bk.asks) ∧
    (Core.execute bk taker eid).1.idToLocation taker.orderID = none ∧
    (Core.oppositeSide bk taker = [] →
      (Core.execute bk taker eid).2.1.remainingQuantity = taker.remainingQuantity ∧
      (Core.execute bk taker eid).1.bids = bk.bids ∧
      (Core.execute bk taker eid).1.asks = bk.asks) := by
  cases hs : taker.side
  case BUY =>
    have hpos' : Precision.isPositive
        (Core.matchAgainstBook taker bk.idToLocation eid bk.lastMatchedPrice
          bk.asks).taker.remainingQuantity = true := by
      simpa only [Core.oppositeSweep, hs] using hpos
    have htype : ¬((Core.matchAgainstBook taker bk.idToLocation eid
        bk.lastMatchedPrice bk.asks).taker.type = Core.OrderType.LIMIT) := by
      rw [(matchAgainstBook_taker_fields taker bk.idToLocation eid
        bk.lastMatchedPrice bk.asks).2.1, hm]
      decide
    have hred : Core.execute bk taker eid =
        (Core.publishShadow
          { bk with
            asks := (Core.matchAgainstBook taker bk.idToLocation eid
              bk.lastMatchedPrice bk.asks).side
            idToLocation := (Core.matchAgainstBook taker bk.idToLocation eid
              bk.lastMatchedPrice bk.asks).locs
            lastMatchedPrice := (Core.matchAgainstBook taker bk.idToLocation eid
              bk.lastMatchedPrice bk.asks).lastPrice },
         { (Core.matchAgainstBook taker bk.idToLocation eid
              bk.lastMatchedPrice bk.asks).taker with
            status := Core.OrderStatus.CANCELLED },
         ⟨taker.orderID,
          (Core.matchAgainstBook taker bk.idToLocation eid
            bk.lastMatchedPrice bk.asks).taker.remainingQuantity,
          (Core.matchAgainstBook taker bk.idToLocation eid
            bk.lastMatchedPrice bk.asks).fills⟩,
         (Core.matchAgainstBook taker bk.idToLocation eid
           bk.lastMatchedPrice bk.asks).nextExecId) := by
      simp only [Core.execute, hs]
      rw [if_pos hpos', if_neg htype]
    refine ⟨?_, ?_, ?_, ?_, ?_, ?_, ?_⟩
    · rw [hred]
    · rw [hred]
      simp only [Core.oppositeSweep, hs]
    · rw [hred]
      simp only [Core.oppositeSweep, hs]
    · intro _
      rw [hred]
      simp [Core.oppositeSweep, Core.publishShadow, hs]
    · intro h
      exact absurd h (by decide)
    · rw [hred]
      exact matchAgainstBook_locs_none _ _ _ _ _ _ hfresh
    · intro hempty
      simp only [Core.oppositeSide, hs] at hempty
      rw [hred]
      simp [hempty, Core.matchAgainstBook, Core.publishShadow]
  case SELL =>
    have hpos' : Precision.isPositive
        (Core.matchAgainstBook taker bk.idToLocation eid bk.lastMatchedPrice
          bk.bids).taker.remainingQuantity = true := by
      simpa only [Core.oppositeSweep, hs] using hpos
    have htype : ¬((Core.matchAgainstBook taker bk.idToLocation eid
        bk.lastMatchedPrice bk.bids).taker.type = Core.OrderType.LIMIT) := by
      rw [(matchAgainstBook_taker_fields taker bk.idToLocation eid
        bk.lastMatchedPrice bk.bids).2.1, hm]
      decide
    have hred : Core.execute bk taker eid =
        (Core.publishShadow
          { bk with
            bids := (Core.matchAgainstBook taker bk.idToLocation eid
              bk.lastMatchedPrice bk.bids).side
            idToLocation := (Core.matchAgainstBook taker bk.idToLocation eid
              bk.lastMatchedPrice bk.bids).locs
            lastMatchedPrice := (Core.matchAgainstBook taker bk.idToLocation eid
              bk.lastMatchedPrice bk.bids).lastPrice },
         { (Core.matchAgainstBook taker bk.idToLocation eid
              bk.lastMatchedPrice bk.bids).taker with
            status := Core.OrderStatus.CANCELLED },
         ⟨taker.orderID,
          (Core.matchAgainstBook taker bk.idToLocation eid
            bk.lastMatchedPrice bk.bids).taker.remainingQuantity,
          (Core.matchAgainstBook taker bk.idToLocation eid
            bk.lastMatchedPrice bk.bids).fills⟩,
         (Core.matchAgainstBook taker bk.idToLocation eid
           bk.lastMatchedPrice bk.bids).nextExecId) := by
      simp only [Core.execute, hs]
      rw [if_pos hpos', if_neg htype]
    refine ⟨?_, ?_, ?_, ?_, ?_, ?_, ?_⟩
    · rw [hred]
    · rw [hred]
      simp only [Core.oppositeSweep, hs]
    · rw [hred]
      simp only [Core.oppositeSweep, hs]
    · intro h
      exact absurd h (by decide)
    · intro _
      rw [hred]
      simp [Core.oppositeSweep, Core.publishShadow, hs]
    · rw [hred]
      exact matchAgainstBook_locs_none _ _ _ _ _ _ hfresh
    · intro hempty
      simp only [Core.oppositeSide, hs] at hempty
      rw [hred]
      simp [hempty, Core.matchAgainstBook, Core.publishShadow]

/-- Claim C3, witness: a MARKET sell for 10 on an empty book is CANCELLED
with its full remainder preserved. -/
theorem C3_market_residual_cancelled_witness :
    Precision.isPositive
      (Core.oppositeSweep ⟨[], [], fun _ => none, ⟨[], [], 0⟩, 0⟩
        ⟨7, 0, 10, 10, 0, .SELL, .MARKET, .ACTIVE⟩ 0).taker.remainingQuantity = true ∧
    (Core.execute ⟨[], [], fun _ => none, ⟨[], [], 0⟩, 0⟩
        ⟨7, 0, 10, 10, 0, .SELL, .MARKET, .ACTIVE⟩ 0).2.1.status =
      Core.OrderStatus.CANCELLED := by
  have hp : Precision.isPositive
      (Core.oppositeSweep ⟨[], [], fun _ => none, ⟨[], [], 0⟩, 0⟩
        ⟨7, 0, 10, 10, 0, .SELL, .MARKET, .ACTIVE⟩ 0).taker.remainingQuantity = true := by
    norm_num [Core.oppositeSweep, Core.matchAgainstBook, Precision.isPositive,
      Precision.EPSILON]
  exact ⟨hp, (C3_market_residual_cancelled ⟨[], [], fun _ => none, ⟨[], [], 0⟩, 0⟩
    ⟨7, 0, 10, 10, 0, .SELL, .MARKET, .ACTIVE⟩ 0 rfl rfl hp).1⟩

/-- `sumRem` of a cons. -/
theorem sumRem_cons (o : Submission.Order) (l : List Submission.Order) :
    Submission.sumRem (o :: l) = o.remainingQuantity + Submission.sumRem l := by
  simp [Submission.sumRem]

/-- `sumRem` of an append. -/
theorem sumRem_append (l1 l2 : List Submission.Order) :
    Submission.sumRem (l1 ++ l2) = Submission.sumRem l1 + Submission.sumRem l2 := by
  simp [Submission.sumRem]

/-- Entries at least EPSILON have a nonnegative sum. -/
theorem sumRem_nonneg (l : List Submission.Order)
    (h : ∀ o ∈ l, Precision.EPSILON ≤ o.remainingQuantity) :
    0 ≤ Submission.sumRem l := by
  induction l with
  | nil => simp [Submission.sumRem]
  | cons o rest ih =>
    rw [sumRem_cons]
    have h1 := h o (List.mem_cons_self o rest)
    have h2 := ih (fun x hx => h x (List.mem_cons_of_mem o hx))
    have := epsilon_pos
    linarith

/-- An exhausted taker makes the inner loop a no-op. -/
theorem matchAtLevel_not_positive (tk : Submission.Command) (mp q v : ℚ)
    (os : List Submission.Order) (h : ¬ Precision.isPositive q = true) :
    Submission.matchAtLevel tk mp q v os = ⟨[], os, q, v, []⟩ := by
  cases os with
  | nil => rfl
  | cons o rest => simp only [Submission.matchAtLevel, if_neg h]

/-- Step equation: active taker, entry fully consumed (erased). -/
theorem matchAtLevel_cons_erase (tk : Submission.Command) (mp q v : ℚ)
    (o : Submission.Order) (rest : List Submission.Order)
    (hq : Precision.isPositive q = true)
    (hz : Precision.isZero (Precision.subtract_or_zero o.remainingQuantity
      (min q o.remainingQuantity)) = true) :
    Submission.matchAtLevel tk mp q v (o :: rest) =
      ⟨Submission.printTrade tk o mp (min q o.remainingQuantity) ::
         (Submission.matchAtLevel tk mp
           (Precision.subtract_or_zero q (min q o.remainingQuantity))
           (Precision.subtract_or_zero v (min q o.remainingQuantity)) rest).trades,
       (Submission.matchAtLevel tk mp
           (Precision.subtract_or_zero q (min q o.remainingQuantity))
           (Precision.subtract_or_zero v (min q o.remainingQuantity)) rest).orders,
       (Submission.matchAtLevel tk mp
           (Precision.subtract_or_zero q (min q o.remainingQuantity))
           (Precision.subtract_or_zero v (min q o.remainingQuantity)) rest).takerQty,
       (Submission.matchAtLevel tk mp
           (Precision.subtract_or_zero q (min q o.remainingQuantity))
           (Precision.subtract_or_zero v (min q o.remainingQuantity)) rest).volume,
       Submission.okey o ::
         (Submission.matchAtLevel tk mp
           (Precision.subtract_or_zero q (min q o.remainingQuantity))
           (Precision.subtract_or_zero v (min q o.remainingQuantity)) rest).removed⟩ := by
  simp only [Submission.matchAtLevel, if_pos hq, if_pos hz]

/-- Step equation: active taker, entry partially filled (kept). -/
theorem matchAtLevel_cons_keep (tk : Submission.Command) (mp q v : ℚ)
    (o : Submission.Order) (rest : List Submission.Order)
    (hq : Precision.isPositive q = true)
    (hz : ¬ Precision.isZero (Precision.subtract_or_zero o.remainingQuantity
      (min q o.remainingQuantity)) = true) :
    Submission.matchAtLevel tk mp q v (o :: rest) =
      ⟨Submission.printTrade tk o mp (min q o.remainingQuantity) ::
         (Submission.matchAtLevel tk mp
           (Precision.subtract_or_zero q (min q o.remainingQuantity))
           (Precision.subtract_or_zero v (min q o.remainingQuantity)) rest).trades,
       ⟨o.userId, o.userOrderId, o.price,
         Precision.subtract_or_zero o.remainingQuantity (min q o.remainingQuantity)⟩ ::
         (Submission.matchAtLevel tk mp
           (Precision.subtract_or_zero q (min q o.remainingQuantity))
           (Precision.subtract_or_zero v (min q o.remainingQuantity)) rest).orders,
       (Submission.matchAtLevel tk mp
           (Precision.subtract_or_zero q (min q o.remainingQuantity))
           (Precision.subtract_or_zero v (min q o.remainingQuantity)) rest).takerQty,
       (Submission.matchAtLevel tk mp
           (Precision.subtract_or_zero q (min q o.remainingQuantity))
           (Precision.subtract_or_zero v (min q o.remainingQuantity)) rest).volume,
       (Submission.matchAtLevel tk mp
           (Precision.subtract_or_zero q (min q o.remainingQuantity))
           (Precision.subtract_or_zero v (min q o.remainingQuantity)) rest).removed⟩ := by
  simp only [Submission.matchAtLevel, if_pos hq, if_neg hz]

/-- Key volume lemma for the inner loop: starting from a level whose volume
equals the sum of its entries exactly, with every entry at least EPSILON,
one pass leaves the surviving entries at least EPSILON and the volume
within EPSILON of their sum (the only drift source is a dust-snapped final
entry, which ends the sweep). -/
theorem matchAtLevel_volume (tk : Submission.Command) (mp : ℚ)
    (os : List Submission.Order) : ∀ (q v : ℚ),
    v = Submission.sumRem os →
    (∀ o ∈ os, Precision.EPSILON ≤ o.remainingQuantity) →
    |(Submission.matchAtLevel tk mp q v os).volume -
        Submission.sumRem (Submission.matchAtLevel tk mp q v os).orders| <
      Precision.EPSILON ∧
    ∀ o ∈ (Submission.matchAtLevel tk mp q v os).orders,
      Precision.EPSILON ≤ o.remainingQuantity := by
  induction os with
  | nil =>
    intro q v hv ho
    refine ⟨?_, ho⟩
    simp only [Submission.matchAtLevel]
    rw [hv]
    simpa [Submission.sumRem] using epsilon_pos
  | cons o rest ih =>
    intro q v hv ho
    by_cases hq : Precision.isPositive q = true
    case neg =>
      rw [matchAtLevel_not_positive tk mp _ _ _ hq]
      refine ⟨?_, ho⟩
      rw [hv]
      simpa using epsilon_pos
    case pos =>
    have heps := epsilon_pos
    have hqe : Precision.EPSILON ≤ q := by
      simpa [Precision.isPositive] using hq
    have hoe : Precision.EPSILON ≤ o.remainingQuantity :=
      ho o (List.mem_cons_self o rest)
    have hrest : ∀ x ∈ rest, Precision.EPSILON ≤ x.remainingQuantity :=
      fun x hx => ho x (List.mem_cons_of_mem o hx)
    have hrestsum : 0 ≤ Submission.sumRem rest := sumRem_nonneg rest hrest
    have htle : min q o.remainingQuantity ≤ o.remainingQuantity := min_le_right _ _
    have htleq : min q o.remainingQuantity ≤ q := min_le_left _ _
    rw [sumRem_cons] at hv
    by_cases hz : Precision.isZero
        (Precision.subtract_or_zero o.remainingQuantity (min q o.remainingQuantity)) = true
    · -- entry erased
      rw [matchAtLevel_cons_erase tk mp q v o rest hq hz]
      dsimp only
      have hsnap : o.remainingQuantity - min q o.remainingQuantity < Precision.EPSILON := by
        by_contra hc
        push_neg at hc
        rw [Precision.subtract_or_zero, if_neg (not_lt.mpr hc)] at hz
        simp only [Precision.isZero, decide_eq_true_eq] at hz
        rw [abs_of_nonneg (by linarith)] at hz
        linarith
      by_cases hto : min q o.remainingQuantity = o.remainingQuantity
      · -- exact consumption, recursion continues
        have hv' : Precision.subtract_or_zero v (min q o.remainingQuantity) =
            Submission.sumRem rest := by
          rw [Precision.subtract_or_zero, hv, hto]
          have harith : o.remainingQuantity + Submission.sumRem rest - o.remainingQuantity =
              Submission.sumRem rest := by ring
          rw [harith]
          cases hrn : rest with
          | nil => simp [Submission.sumRem]
          | cons x xs =>
            have hge : Precision.EPSILON ≤ Submission.sumRem rest := by
              rw [hrn, sumRem_cons]
              have h1 := hrest x (hrn ▸ List.mem_cons_self x xs)
              have h2 := sumRem_nonneg xs
                (fun y hy => hrest y (hrn ▸ List.mem_cons_of_mem x hy))
              linarith
            rw [← hrn, if_neg (not_lt.mpr hge)]
        rw [hv']
        exact ih _ _ rfl hrest
      · -- dust snapped away: taker exhausted, < EPSILON drift on the level
        have hlt : 0 < o.remainingQuantity - min q o.remainingQuantity := by
          rcases lt_or_eq_of_le htle with h | h
          · linarith
          · exact absurd h hto
        have htq : min q o.remainingQuantity = q := by
          rcases min_cases q o.remainingQuantity with ⟨h1, _⟩ | ⟨h1, _⟩
          · exact h1
          · exact absurd h1 hto
        have hq0 : Precision.subtract_or_zero q (min q o.remainingQuantity) = 0 := by
          rw [htq, Precision.subtract_or_zero, if_pos (by linarith)]
        have hnp : ¬ Precision.isPositive
            (Precision.subtract_or_zero q (min q o.remainingQuantity)) = true := by
          rw [hq0]
          simp only [Precision.isPositive, decide_eq_true_eq, not_le]
          linarith
        rw [matchAtLevel_not_positive tk mp _ _ rest hnp]
        dsimp only
        refine ⟨?_, hrest⟩
        rw [Precision.subtract_or_zero]
        by_cases hvt : v - min q o.remainingQuantity < Precision.EPSILON
        · rw [if_pos hvt, abs_lt]
          rw [hv] at hvt
          constructor <;> linarith
        · rw [if_neg hvt, abs_lt, hv]
          constructor <;> linarith
    · -- entry kept: remainder at least EPSILON, volume exactly consistent
      have hr' : Precision.subtract_or_zero o.remainingQuantity (min q o.remainingQuantity) =
          o.remainingQuantity - min q o.remainingQuantity := by
        rw [Precision.subtract_or_zero]
        by_cases hc : o.remainingQuantity - min q o.remainingQuantity < Precision.EPSILON
        · exfalso
          apply hz
          rw [Precision.subtract_or_zero, if_pos hc]
          simp only [Precision.isZero, decide_eq_true_eq, abs_zero]
          linarith
        · rw [if_neg hc]
      have hre : Precision.EPSILON ≤ o.remainingQuantity - min q o.remainingQuantity := by
        by_contra hc
        push_neg at hc
        apply hz
        rw [Precision.subtract_or_zero, if_pos hc]
        simp only [Precision.isZero, decide_eq_true_eq, abs_zero]
        linarith
      have htq : min q o.remainingQuantity = q := by
        rcases min_cases q o.remainingQuantity with ⟨h1, _⟩ | ⟨h1, _⟩
        · exact h1
        · exfalso
          rw [h1] at hre
          linarith
      have hq0 : Precision.subtract_or_zero q (min q o.remainingQuantity) = 0 := by
        rw [htq, Precision.subtract_or_zero, if_pos (by linarith)]
      have hnp : ¬ Precision.isPositive
          (Precision.subtract_or_zero q (min q o.remainingQuantity)) = true := by
        rw [hq0]
        simp only [Precision.isPositive, decide_eq_true_eq, not_le]
        linarith
      rw [matchAtLevel_cons_keep tk mp q v o rest hq hz,
        matchAtLevel_not_positive tk mp _ _ rest hnp]
      dsimp only
      constructor
      · rw [sumRem_cons]
        dsimp only
        rw [hr', Precision.subtract_or_zero, if_neg]
        · rw [hv, abs_lt]
          constructor <;> linarith
        · rw [hv]
          push_neg
          linarith
      · intro x hx
        rcases List.mem_cons.mp hx with hx1 | hx2
        · subst hx1
          simpa [hr'] using hre
        · exact hrest x hx2

/-- An exact level satisfies the epsilon invariant. -/
theorem levelNear_of_exact (lvl : Submission.PriceLevel)
    (h : Submission.levelExact lvl) : Submission.levelNear lvl := by
  rw [Submission.levelNear, h]
  simpa using epsilon_pos

/-- An exhausted taker makes the outer loop a no-op. -/
theorem matchAgainstSide_not_positive (tk : Submission.Command) (q : ℚ)
    (side : List Submission.PriceLevel) (h : ¬ Precision.isPositive q = true) :
    Submission.matchAgainstSide tk q side = ⟨[], side, q, []⟩ := by
  cases side with
  | nil => rfl
  | cons lvl rest => simp only [Submission.matchAgainstSide, if_neg h]

/-- Outer sweep lemma: a sweep over levels that satisfy the exact volume
invariant (with entries at least EPSILON) leaves every surviving level
within EPSILON of the sum of its entries. -/
theorem matchAgainstSide_volume (tk : Submission.Command)
    (side : List Submission.PriceLevel) : ∀ q : ℚ,
    (∀ lvl ∈ side, Submission.levelExact lvl ∧
      ∀ o ∈ lvl.orders, Precision.EPSILON ≤ o.remainingQuantity) →
    ∀ lvl ∈ (Submission.matchAgainstSide tk q side).side, Submission.levelNear lvl := by
  induction side with
  | nil =>
    intro q _ lvl hm
    simp only [Submission.matchAgainstSide] at hm
    cases hm
  | cons l rest ih =>
    intro q h lvl hm
    have hall : ∀ x ∈ l :: rest, Submission.levelNear x :=
      fun x hx => levelNear_of_exact x (h x hx).1
    by_cases hq : Precision.isPositive q = true
    · by_cases hcb : Submission.crossBreak tk l.price = true
      · simp only [Submission.matchAgainstSide, if_pos hq, if_pos hcb] at hm
        exact hall lvl hm
      · have hinner := matchAtLevel_volume tk l.price l.orders q l.totalVolume
          (h l (List.mem_cons_self l rest)).1
          (h l (List.mem_cons_self l rest)).2
        by_cases he : (Submission.matchAtLevel tk l.price q l.totalVolume l.orders).orders.isEmpty = true
        · simp only [Submission.matchAgainstSide, if_pos hq, if_pos hcb, if_neg hcb,
            if_pos he] at hm
          exact ih _ (fun x hx => h x (List.mem_cons_of_mem l hx)) lvl hm
        · simp only [Submission.matchAgainstSide, if_pos hq, if_neg hcb, if_neg he] at hm
          rcases List.mem_cons.mp hm with h1 | h2
          · subst h1
            exact hinner.1
          · exact hall lvl (List.mem_cons_of_mem l h2)
    · rw [matchAgainstSide_not_positive tk q _ hq] at hm
      exact hall lvl hm

/-- `restOrderOnBook` preserves the exact volume invariant. -/
theorem restOrderOnBook_exact (cmp : ℚ → ℚ → Bool) (cmd : Submission.Command)
    (side : List Submission.PriceLevel)
    (h : ∀ lvl ∈ side, Submission.levelExact lvl) :
    ∀ lvl ∈ Submission.restOrderOnBook cmp cmd side, Submission.levelExact lvl := by
  induction side with
  | nil =>
    intro lvl hm
    simp only [Submission.restOrderOnBook, List.mem_singleton] at hm
    subst hm
    simp [Submission.levelExact, Submission.sumRem]
  | cons l rest ih =>
    intro lvl hm
    by_cases hp : l.price = cmd.price
    · simp only [Submission.restOrderOnBook, if_pos hp] at hm
      rcases List.mem_cons.mp hm with h1 | h2
      · subst h1
        have := h l (List.mem_cons_self l rest)
        simp only [Submission.levelExact] at this ⊢
        rw [sumRem_append, this, sumRem_cons]
        simp [Submission.sumRem]
      · exact h lvl (List.mem_cons_of_mem l h2)
    · by_cases hc : cmp l.price cmd.price = true
      · simp only [Submission.restOrderOnBook, if_neg hp, if_pos hc] at hm
        rcases List.mem_cons.mp hm with h1 | h2
        · subst h1
          exact h lvl (List.mem_cons_self lvl rest)
        · exact ih (fun x hx => h x (List.mem_cons_of_mem l hx)) lvl h2
      · simp only [Submission.restOrderOnBook, if_neg hp, if_neg hc] at hm
        rcases List.mem_cons.mp hm with h1 | h2
        · subst h1
          simp [Submission.levelExact, Submission.sumRem]
        · exact h lvl h2

/-- Removing the entry found by a predicate subtracts exactly its
remaining quantity from the sum. -/
theorem sumRem_eraseP (p : Submission.Order → Bool) (l : List Submission.Order)
    (e : Submission.Order) (hf : l.find? p = some e) :
    Submission.sumRem (l.eraseP p) = Submission.sumRem l - e.remainingQuantity := by
  induction l with
  | nil => cases hf
  | cons x xs ih =>
    by_cases hp : p x = true
    · rw [List.find?_cons_of_pos _ hp] at hf
      have hx : x = e := by injection hf
      subst hx
      rw [List.eraseP_cons_of_pos hp, sumRem_cons]
      ring
    · rw [List.find?_cons_of_neg _ (by simpa using hp)] at hf
      rw [List.eraseP_cons_of_neg (by simpa using hp), sumRem_cons, sumRem_cons,
        ih hf]
      ring

/-- `removeFromSide` preserves the exact volume invariant. -/
theorem removeFromSide_exact (key : Submission.OrderKey) (price : ℚ)
    (side : List Submission.PriceLevel)
    (h : ∀ lvl ∈ side, Submission.levelExact lvl) :
    ∀ lvl ∈ Submission.removeFromSide key price side, Submission.levelExact lvl := by
  induction side with
  | nil =>
    intro lvl hm
    simp only [Submission.removeFromSide] at hm
    cases hm
  | cons l rest ih =>
    intro lvl hm
    by_cases hp : l.price = price
    · simp only [Submission.removeFromSide, if_pos hp] at hm
      cases hf : l.orders.find? (fun o => decide (Submission.okey o = key)) with
      | none =>
        rw [hf] at hm
        exact h lvl hm
      | some e =>
        rw [hf] at hm
        dsimp only at hm
        by_cases hemp : (l.orders.eraseP (fun o => decide (Submission.okey o = key))).isEmpty = true
        · rw [if_pos hemp] at hm
          exact h lvl (List.mem_cons_of_mem l hm)
        · rw [if_neg hemp] at hm
          rcases List.mem_cons.mp hm with h1 | h2
          · subst h1
            have hl := h l (List.mem_cons_self l rest)
            simp only [Submission.levelExact] at hl ⊢
            rw [sumRem_eraseP _ _ e hf, hl]
          · exact h lvl (List.mem_cons_of_mem l h2)
    · simp only [Submission.removeFromSide, if_neg hp] at hm
      rcases List.mem_cons.mp hm with h1 | h2
      · subst h1
        exact h lvl (List.mem_cons_self lvl rest)
      · exact ih (fun x hx => h x (List.mem_cons_of_mem l hx)) lvl h2

/-- Claim C2 (amended): placement and cancellation preserve the exact
per-level equality totalVolume = Σ entries.remainingQuantity (cancellation
subtracts the removed entry's remainingQuantity); a matching sweep over
levels satisfying the exact equality (entries at least EPSILON) leaves
every surviving level with |totalVolume − Σ| < EPSILON. The epsilon bound
is not an invariant across repeated operations, because each dust-snapped
entry can contribute up to EPSILON of drift (see the counterexample). -/
theorem C2_level_volume_invariant (tk : Submission.Command) (q : ℚ)
    (cmp : ℚ → ℚ → Bool) (cmd : Submission.Command) (key : Submission.OrderKey)
    (price : ℚ) (side : List Submission.PriceLevel) :
    ((∀ lvl ∈ side, Submission.levelExact lvl) →
      ∀ lvl ∈ Submission.restOrderOnBook cmp cmd side, Submission.levelExact lvl) ∧
    ((∀ lvl ∈ side, Submission.levelExact lvl) →
      ∀ lvl ∈ Submission.removeFromSide key price side, Submission.levelExact lvl) ∧
    ((∀ lvl ∈ side, Submission.levelExact lvl ∧
        ∀ o ∈ lvl.orders, Precision.EPSILON ≤ o.remainingQuantity) →
      ∀ lvl ∈ (Submission.matchAgainstSide tk q side).side, Submission.levelNear lvl) :=
  ⟨restOrderOnBook_exact cmp cmd side,
   removeFromSide_exact key price side,
   matchAgainstSide_volume tk side q⟩

/-- Claim C2, witness: one exact unit level keeps the invariant through a
sweep by a half-unit taker. -/
theorem C2_level_volume_invariant_witness :
    (∀ lvl ∈ [(⟨100, 1, [⟨1, 1, 100, 1⟩]⟩ : Submission.PriceLevel)],
      Submission.levelExact lvl ∧
        ∀ o ∈ lvl.orders, Precision.EPSILON ≤ o.remainingQuantity) ∧
    (∀ lvl ∈ (Submission.matchAgainstSide ⟨9, 9, (1:ℚ)/2, 0, .BUY⟩ ((1:ℚ)/2)
        [(⟨100, 1, [⟨1, 1, 100, 1⟩]⟩ : Submission.PriceLevel)]).side,
      Submission.levelNear lvl) := by
  have hside : ∀ lvl ∈ [(⟨100, 1, [⟨1, 1, 100, 1⟩]⟩ : Submission.PriceLevel)],
      Submission.levelExact lvl ∧
        ∀ o ∈ lvl.orders, Precision.EPSILON ≤ o.remainingQuantity := by
    intro lvl hm
    simp only [List.mem_singleton] at hm
    subst hm
    constructor
    · simp [Submission.levelExact, Submission.sumRem]
    · intro o ho
      simp only [List.mem_singleton] at ho
      subst ho
      norm_num [Precision.EPSILON]
  exact ⟨hside,
    (C2_level_volume_invariant ⟨9, 9, (1:ℚ)/2, 0, .BUY⟩ ((1:ℚ)/2)
      (fun a b => decide (a < b)) ⟨9, 9, 1, 100, .BUY⟩ ⟨1, 1⟩ 100
      [(⟨100, 1, [⟨1, 1, 100, 1⟩]⟩ : Submission.PriceLevel)]).2.2 hside⟩

/-- Claim C2, counterexample to the claim as stated: a level at price 100
holding three unit entries (volume exactly 3) is swept twice by takers of
quantity 1 − 9e-10; each sweep dust-snaps one entry, and after the second
sweep the surviving level's |totalVolume − Σ entries| is 1.8e-9 ≥ EPSILON. -/
theorem C2_drift_counterexample :
    ¬ (∀ lvl ∈ (Submission.matchAgainstSide ⟨9, 9, 1 - 9/10000000000, 0, .BUY⟩
        (1 - 9/10000000000)
        (Submission.matchAgainstSide ⟨8, 8, 1 - 9/10000000000, 0, .BUY⟩
          (1 - 9/10000000000)
          [⟨100, 3, [⟨1, 1, 100, 1⟩, ⟨2, 2, 100, 1⟩, ⟨3, 3, 100, 1⟩]⟩]).side).side,
      Submission.levelNear lvl) := by
  norm_num [Submission.matchAgainstSide, Submission.matchAtLevel,
    Submission.crossBreak, Submission.levelNear, Submission.sumRem, Submission.okey,
    Precision.isPositive, Precision.isZero, Precision.isGreater, Precision.isLess,
    Precision.subtract_or_zero, Precision.EPSILON, min_def, Submission.printTrade,
    le_abs]

/-- A trade is always priced at the maker level's price. -/
theorem printTrade_price (tk : Submission.Command) (o : Submission.Order)
    (p q : ℚ) : (Submission.printTrade tk o p q).price = p := by
  cases h : tk.side <;> simp [Submission.printTrade, h]

/-- The maker columns of an emitted trade carry the resting order's key. -/
theorem makerKey_printTrade (tk : Submission.Command) (o : Submission.Order)
    (p q : ℚ) :
    Submission.makerKey tk.side (Submission.printTrade tk o p q) = Submission.okey o := by
  cases h : tk.side <;>
    simp [Submission.printTrade, Submission.makerKey, Submission.okey, h]

instance (s : Submission.Side) : IsTrans ℚ (Submission.sideOrd s) where
  trans := by
    cases s <;>
      (intro a b c h1 h2
       simp only [Submission.sideOrd] at h1 h2 ⊢
       linarith)

instance (s : Submission.Side) : IsIrrefl ℚ (Submission.sideOrd s) where
  irrefl := by
    cases s <;>
      (intro a
       simp [Submission.sideOrd])

/-- Inner loop: every trade is at the maker price, and the maker keys form
the front-to-back FIFO consumption order of the level's entries. -/
theorem matchAtLevel_trades (tk : Submission.Command) (mp : ℚ)
    (os : List Submission.Order) : ∀ (q v : ℚ),
    (∀ t ∈ (Submission.matchAtLevel tk mp q v os).trades, t.price = mp) ∧
    ((Submission.matchAtLevel tk mp q v os).trades.map (Submission.makerKey tk.side) =
      (os.map Submission.okey).take
        (Submission.matchAtLevel tk mp q v os).trades.length) := by
  induction os with
  | nil =>
    intro q v
    exact ⟨fun t ht => absurd ht (List.not_mem_nil t), by simp [Submission.matchAtLevel]⟩
  | cons o rest ih =>
    intro q v
    by_cases hq : Precision.isPositive q = true
    · by_cases hz : Precision.isZero (Precision.subtract_or_zero o.remainingQuantity
          (min q o.remainingQuantity)) = true
      · rw [matchAtLevel_cons_erase tk mp q v o rest hq hz]
        dsimp only
        constructor
        · intro t ht
          rcases List.mem_cons.mp ht with h1 | h2
          · subst h1
            exact printTrade_price tk o mp _
          · exact (ih _ _).1 t h2
        · rw [List.map_cons, makerKey_printTrade, List.length_cons, List.map_cons,
            List.take_succ_cons, (ih _ _).2]
      · rw [matchAtLevel_cons_keep tk mp q v o rest hq hz]
        dsimp only
        constructor
        · intro t ht
          rcases List.mem_cons.mp ht with h1 | h2
          · subst h1
            exact printTrade_price tk o mp _
          · exact (ih _ _).1 t h2
        · rw [List.map_cons, makerKey_printTrade, List.length_cons, List.map_cons,
            List.take_succ_cons, (ih _ _).2]
    · rw [matchAtLevel_not_positive tk mp _ _ _ hq]
      exact ⟨fun t ht => absurd ht (List.not_mem_nil t), by simp⟩

/-- Outer loop: every emitted trade is priced at the price of one of the
maker side's pre-sweep levels. -/
theorem matchAgainstSide_trade_price_mem (tk : Submission.Command)
    (side : List Submission.PriceLevel) : ∀ q : ℚ,
    ∀ t ∈ (Submission.matchAgainstSide tk q side).trades,
      ∃ lvl, lvl ∈ side ∧ t.price = lvl.price := by
  induction side with
  | nil =>
    intro q t ht
    simp only [Submission.matchAgainstSide] at ht
    cases ht
  | cons l rest ih =>
    intro q t ht
    by_cases hq : Precision.isPositive q = true
    · by_cases hcb : Submission.crossBreak tk l.price = true
      · simp only [Submission.matchAgainstSide, if_pos hq, if_pos hcb] at ht
        cases ht
      · by_cases he : (Submission.matchAtLevel tk l.price q l.totalVolume
            l.orders).orders.isEmpty = true
        · simp only [Submission.matchAgainstSide, if_pos hq, if_neg hcb, if_pos he] at ht
          rcases List.mem_append.mp ht with h1 | h2
          · exact ⟨l, List.mem_cons_self l rest,
              (matchAtLevel_trades tk l.price l.orders q l.totalVolume).1 t h1⟩
          · obtain ⟨lvl, hlvl, hp⟩ := ih _ t h2
            exact ⟨lvl, List.mem_cons_of_mem l hlvl, hp⟩
        · simp only [Submission.matchAgainstSide, if_pos hq, if_neg hcb, if_neg he] at ht
          exact ⟨l, List.mem_cons_self l rest,
            (matchAtLevel_trades tk l.price l.orders q l.totalVolume).1 t ht⟩
    · rw [matchAgainstSide_not_positive tk q _ hq] at ht
      cases ht

/-- A list of equal prices is a chain under equality-or-better. -/
theorem chain'_of_const {S : ℚ → ℚ → Prop} (xs : List ℚ) (c : ℚ)
    (h : ∀ x ∈ xs, x = c) :
    List.Chain' (fun a b => a = b ∨ S a b) xs := by
  induction xs with
  | nil => exact List.chain'_nil
  | cons x t ih =>
    rw [List.chain'_cons']
    refine ⟨?_, ih (fun y hy => h y (List.mem_cons_of_mem x hy))⟩
    intro y hy
    left
    have hyt : y ∈ t := by
      cases t with
      | nil => simp at hy
      | cons z zs =>
        simp only [List.head?_cons, Option.mem_def, Option.some.injEq] at hy
        subst hy
        exact List.mem_cons_self z zs
    rw [h x (List.mem_cons_self x t), h y (List.mem_cons_of_mem x hyt)]

/-- Outer loop: the emitted trade prices are monotone in the maker side's
order (levels are consumed best-first). -/
theorem matchAgainstSide_price_chain (tk : Submission.Command)
    (side : List Submission.PriceLevel) : ∀ q : ℚ,
    List.Chain' (Submission.sideOrd tk.side) (side.map Submission.PriceLevel.price) →
    List.Chain' (fun a b => a = b ∨ Submission.sideOrd tk.side a b)
      ((Submission.matchAgainstSide tk q side).trades.map Submission.Trade.price) := by
  induction side with
  | nil =>
    intro q _
    simp only [Submission.matchAgainstSide]
    exact List.chain'_nil
  | cons l rest ih =>
    intro q hs
    have hpair : List.Pairwise (Submission.sideOrd tk.side)
        (l.price :: rest.map Submission.PriceLevel.price) := by
      rw [← List.chain'_iff_pairwise]
      simpa using hs
    have hordrest : ∀ p' ∈ rest.map Submission.PriceLevel.price,
        Submission.sideOrd tk.side l.price p' := (List.pairwise_cons.mp hpair).1
    have htail : List.Chain' (Submission.sideOrd tk.side)
        (rest.map Submission.PriceLevel.price) := by
      have := (List.chain'_cons'.mp (by simpa using hs)).2
      exact this
    by_cases hq : Precision.isPositive q = true
    · by_cases hcb : Submission.crossBreak tk l.price = true
      · simp only [Submission.matchAgainstSide, if_pos hq, if_pos hcb]
        exact List.chain'_nil
      · by_cases he : (Submission.matchAtLevel tk l.price q l.totalVolume
            l.orders).orders.isEmpty = true
        · simp only [Submission.matchAgainstSide, if_pos hq, if_neg hcb, if_pos he]
          rw [List.map_append]
          rw [List.chain'_append]
          refine ⟨chain'_of_const _ l.price ?_, ih _ htail, ?_⟩
          · intro x hx
            obtain ⟨t, ht, rfl⟩ := List.mem_map.mp hx
            exact (matchAtLevel_trades tk l.price l.orders q l.totalVolume).1 t ht
          · intro x hx y hy
            have hxm : x ∈ (Submission.matchAtLevel tk l.price q
                l.totalVolume l.orders).trades.map Submission.Trade.price := by
              obtain ⟨hne', hx'⟩ := List.mem_getLast?_eq_getLast hx
              rw [hx']
              exact List.getLast_mem hne'
            have hym : y ∈ (Submission.matchAgainstSide tk
                (Submission.matchAtLevel tk l.price q l.totalVolume l.orders).takerQty
                rest).trades.map Submission.Trade.price := by
              cases hl2 : (Submission.matchAgainstSide tk
                  (Submission.matchAtLevel tk l.price q l.totalVolume l.orders).takerQty
                  rest).trades.map Submission.Trade.price with
              | nil =>
                rw [hl2] at hy
                simp at hy
              | cons z zs =>
                rw [hl2] at hy
                simp only [List.head?_cons, Option.mem_def, Option.some.injEq] at hy
                rw [← hy]
                exact List.mem_cons_self z zs
            obtain ⟨t, ht, rfl⟩ := List.mem_map.mp hxm
            obtain ⟨u, hu, rfl⟩ := List.mem_map.mp hym
            obtain ⟨lvl, hlvl, hp⟩ := matchAgainstSide_trade_price_mem tk rest _ u hu
            right
            rw [(matchAtLevel_trades tk l.price l.orders q l.totalVolume).1 t ht, hp]
            exact hordrest lvl.price (List.mem_map_of_mem _ hlvl)
        · simp only [Submission.matchAgainstSide, if_pos hq, if_neg hcb, if_neg he]
          apply chain'_of_const _ l.price
          intro x hx
          obtain ⟨t, ht, rfl⟩ := List.mem_map.mp hx
          exact (matchAtLevel_trades tk l.price l.orders q l.totalVolume).1 t ht
    · rw [matchAgainstSide_not_positive tk q _ hq]
      exact List.chain'_nil

/-- Outer loop, FIFO: for each pre-sweep level, the maker keys of the
trades priced at that level form the front prefix of the level's entry
keys in arrival order. -/
theorem matchAgainstSide_fifo (tk : Submission.Command)
    (side : List Submission.PriceLevel) : ∀ q : ℚ,
    List.Chain' (Submission.sideOrd tk.side) (side.map Submission.PriceLevel.price) →
    ∀ lvl ∈ side,
      (((Submission.matchAgainstSide tk q side).trades.filter
          (fun t => decide (t.price = lvl.price))).map (Submission.makerKey tk.side)) =
        (lvl.orders.map Submission.okey).take
          (((Submission.matchAgainstSide tk q side).trades.filter
            (fun t => decide (t.price = lvl.price))).length) := by
  induction side with
  | nil =>
    intro q _ lvl hm
    cases hm
  | cons l rest ih =>
    intro q hs lvl hm
    have hpair : List.Pairwise (Submission.sideOrd tk.side)
        (l.price :: rest.map Submission.PriceLevel.price) := by
      rw [← List.chain'_iff_pairwise]
      simpa using hs
    have hordrest : ∀ p' ∈ rest.map Submission.PriceLevel.price,
        Submission.sideOrd tk.side l.price p' := (List.pairwise_cons.mp hpair).1
    have htail : List.Chain' (Submission.sideOrd tk.side)
        (rest.map Submission.PriceLevel.price) :=
      (List.chain'_cons'.mp (by simpa using hs)).2
    have hniq : ∀ r ∈ rest, l.price ≠ r.price := by
      intro r hr heq
      have := hordrest r.price (List.mem_map_of_mem _ hr)
      rw [heq] at this
      exact absurd this (irrefl_of (Submission.sideOrd tk.side) r.price)
    by_cases hq : Precision.isPositive q = true
    · by_cases hcb : Submission.crossBreak tk l.price = true
      · simp only [Submission.matchAgainstSide, if_pos hq, if_pos hcb]
        simp
      · by_cases he : (Submission.matchAtLevel tk l.price q l.totalVolume
            l.orders).orders.isEmpty = true
        · simp only [Submission.matchAgainstSide, if_pos hq, if_neg hcb, if_pos he]
          rw [List.filter_append]
          rcases List.mem_cons.mp hm with h1 | h2
          · subst h1
            have hfself : (Submission.matchAtLevel tk lvl.price q lvl.totalVolume
                lvl.orders).trades.filter (fun t => decide (t.price = lvl.price)) =
                (Submission.matchAtLevel tk lvl.price q lvl.totalVolume lvl.orders).trades := by
              rw [List.filter_eq_self]
              intro t ht
              simp only [decide_eq_true_eq]
              exact (matchAtLevel_trades tk lvl.price lvl.orders q lvl.totalVolume).1 t ht
            have hfnil : (Submission.matchAgainstSide tk
                (Submission.matchAtLevel tk lvl.price q lvl.totalVolume
                  lvl.orders).takerQty rest).trades.filter
                (fun t => decide (t.price = lvl.price)) = [] := by
              rw [List.filter_eq_nil_iff]
              intro t ht
              obtain ⟨lvl', hlvl', hp⟩ := matchAgainstSide_trade_price_mem tk rest _ t ht
              simp only [decide_eq_true_eq]
              rw [hp]
              intro heq
              exact hniq lvl' hlvl' heq.symm
            rw [hfself, hfnil, List.append_nil]
            exact (matchAtLevel_trades tk lvl.price lvl.orders q lvl.totalVolume).2
          · have hfnil1 : (Submission.matchAtLevel tk l.price q l.totalVolume
                l.orders).trades.filter (fun t => decide (t.price = lvl.price)) = [] := by
              rw [List.filter_eq_nil_iff]
              intro t ht
              have := (matchAtLevel_trades tk l.price l.orders q l.totalVolume).1 t ht
              simp only [decide_eq_true_eq]
              rw [this]
              exact hniq lvl h2
            rw [hfnil1, List.nil_append]
            exact ih _ htail lvl h2
        · simp only [Submission.matchAgainstSide, if_pos hq, if_neg hcb, if_neg he]
          rcases List.mem_cons.mp hm with h1 | h2
          · subst h1
            have hfself : (Submission.matchAtLevel tk lvl.price q lvl.totalVolume
                lvl.orders).trades.filter (fun t => decide (t.price = lvl.price)) =
                (Submission.matchAtLevel tk lvl.price q lvl.totalVolume lvl.orders).trades := by
              rw [List.filter_eq_self]
              intro t ht
              simp only [decide_eq_true_eq]
              exact (matchAtLevel_trades tk lvl.price lvl.orders q lvl.totalVolume).1 t ht
            rw [hfself]
            exact (matchAtLevel_trades tk lvl.price lvl.orders q lvl.totalVolume).2
          · have hfnil1 : (Submission.matchAtLevel tk l.price q l.totalVolume
                l.orders).trades.filter (fun t => decide (t.price = lvl.price)) = [] := by
              rw [List.filter_eq_nil_iff]
              intro t ht
              have := (matchAtLevel_trades tk l.price l.orders q l.totalVolume).1 t ht
              simp only [decide_eq_true_eq]
              rw [this]
              exact hniq lvl h2
            rw [hfnil1]
            simp
    · rw [matchAgainstSide_not_positive tk q _ hq]
      simp

/-- Claim C1: for every taker sweep over a maker side sorted best-first
(ascending asks for a BUY taker, descending bids for a SELL taker), the
emitted trade sequence follows strict price-time priority: trade prices
are monotone in the side's order (levels consumed best-first), every trade
is priced at the price of a resting pre-sweep level (the maker's price,
never the taker's limit), and within each level the maker keys of the
trades form the front prefix of the level's FIFO entry keys. -/
theorem C1_price_time_priority (tk : Submission.Command) (q : ℚ)
    (side : List Submission.PriceLevel)
    (hs : List.Chain' (Submission.sideOrd tk.side)
      (side.map Submission.PriceLevel.price)) :
    List.Chain' (fun a b => a = b ∨ Submission.sideOrd tk.side a b)
      ((Submission.matchAgainstSide tk q side).trades.map Submission.Trade.price) ∧
    (∀ t ∈ (Submission.matchAgainstSide tk q side).trades,
      ∃ lvl, lvl ∈ side ∧ t.price = lvl.price) ∧
    (∀ lvl ∈ side,
      (((Submission.matchAgainstSide tk q side).trades.filter
          (fun t => decide (t.price = lvl.price))).map (Submission.makerKey tk.side)) =
        (lvl.orders.map Submission.okey).take
          (((Submission.matchAgainstSide tk q side).trades.filter
            (fun t => decide (t.price = lvl.price))).length)) :=
  ⟨matchAgainstSide_price_chain tk side q hs,
   matchAgainstSide_trade_price_mem tk side q,
   matchAgainstSide_fifo tk side q hs⟩

/-- Claim C1, witness: a BUY taker for 2.5 at limit 12 sweeping asks
[10 (two unit entries), 11 (one unit entry)] — the sorted-side hypothesis
holds and the priority conclusions follow. -/
theorem C1_price_time_priority_witness :
    List.Chain' (Submission.sideOrd (Submission.Command.mk 9 9 (5/2) 12 .BUY).side)
      (([⟨10, 2, [⟨1, 1, 10, 1⟩, ⟨2, 2, 10, 1⟩]⟩,
         ⟨11, 1, [⟨3, 3, 11, 1⟩]⟩] : List Submission.PriceLevel).map
        Submission.PriceLevel.price) ∧
    List.Chain' (fun a b => a = b ∨ Submission.sideOrd
        (Submission.Command.mk 9 9 (5/2) 12 .BUY).side a b)
      ((Submission.matchAgainstSide ⟨9, 9, 5/2, 12, .BUY⟩ (5/2)
        [⟨10, 2, [⟨1, 1, 10, 1⟩, ⟨2, 2, 10, 1⟩]⟩,
         ⟨11, 1, [⟨3, 3, 11, 1⟩]⟩]).trades.map Submission.Trade.price) := by
  have hs : List.Chain' (Submission.sideOrd (Submission.Command.mk 9 9 (5/2) 12 .BUY).side)
      (([⟨10, 2, [⟨1, 1, 10, 1⟩, ⟨2, 2, 10, 1⟩]⟩,
         ⟨11, 1, [⟨3, 3, 11, 1⟩]⟩] : List Submission.PriceLevel).map
        Submission.PriceLevel.price) := by
    simp only [List.map_cons, List.map_nil, List.chain'_cons, List.chain'_singleton,
      and_true, Submission.sideOrd]
    norm_num
  exact ⟨hs, (C1_price_time_priority ⟨9, 9, 5/2, 12, .BUY⟩ (5/2)
    [⟨10, 2, [⟨1, 1, 10, 1⟩, ⟨2, 2, 10, 1⟩]⟩, ⟨11, 1, [⟨3, 3, 11, 1⟩]⟩] hs).1⟩

/-- A sweep that immediately breaks (empty side, or price check at the
best level) changes nothing. -/
theorem matchAgainstBook_noop (tk : Core.Order) (locs : ℕ → Option Core.OrderLocation)
    (eid : ℕ) (last : ℚ) (side : List Core.PriceLevel)
    (h : side = [] ∨ ∃ l ls, side = l :: ls ∧ Core.crossStop tk l.price = true) :
    Core.matchAgainstBook tk locs eid last side = ⟨[], side, tk, locs, eid, last⟩ := by
  rcases h with h | ⟨l, ls, rfl, hcb⟩
  · subst h
    rfl
  · by_cases hp : Precision.isPositive tk.remainingQuantity = true
    · simp only [Core.matchAgainstBook, if_pos hp, if_pos hcb]
    · simp only [Core.matchAgainstBook, if_neg hp]

/-- `find?` skips a matchless front segment. -/
theorem find?_append_of_none {α : Type} (p : α → Bool) (l1 l2 : List α)
    (h : ∀ x ∈ l1, ¬ p x = true) : (l1 ++ l2).find? p = l2.find? p := by
  induction l1 with
  | nil => rfl
  | cons x xs ih =>
    rw [List.cons_append, List.find?_cons_of_neg _ (h x (List.mem_cons_self x xs))]
    exact ih (fun y hy => h y (List.mem_cons_of_mem x hy))

/-- Cancelling the only entry of a freshly created level removes the level
and returns the full quantity. -/
theorem cancelSide_newLevel (o : Core.Order) (tail : List Core.PriceLevel) :
    Core.cancelSide o.side o.price o.orderID
      (⟨o.price, o.remainingQuantity, [⟨o.remainingQuantity, o⟩]⟩ :: tail) =
      some (o.remainingQuantity, tail) := by
  have hbself : Core.levelBefore o.side o.price o.price = false := by
    cases ho : o.side <;> simp [Core.levelBefore]
  have heqself : Precision.equal o.price o.price = true := by
    simp only [Precision.equal, Precision.isEqual, sub_self, abs_zero,
      decide_eq_true_eq]
    exact epsilon_pos
  simp [Core.cancelSide, hbself, heqself, List.find?]

/-- Appending then cancelling a fresh order restores the side: the core of
the place-then-cancel round trip. -/
theorem cancelSide_placeSide (o : Core.Order) (side : List Core.PriceLevel)
    (hfresh : ∀ lvl ∈ side, ∀ e ∈ lvl.entries, e.fatOrder.orderID ≠ o.orderID)
    (hsep : ∀ lvl ∈ side, lvl.price = o.price ∨ Precision.equal lvl.price o.price = false)
    (hvol : ∀ lvl ∈ side, Precision.EPSILON ≤ lvl.totalVolume)
    (hne : ∀ lvl ∈ side, lvl.entries ≠ []) :
    Core.cancelSide o.side o.price o.orderID (Core.placeSide o side) =
      some (o.remainingQuantity, side) := by
  have hbself : Core.levelBefore o.side o.price o.price = false := by
    cases ho : o.side <;> simp [Core.levelBefore]
  have heqself : Precision.equal o.price o.price = true := by
    simp only [Precision.equal, Precision.isEqual, sub_self, abs_zero,
      decide_eq_true_eq]
    exact epsilon_pos
  induction side with
  | nil => exact cancelSide_newLevel o []
  | cons lvl rest ih =>
    have hfr : ∀ l ∈ rest, ∀ e ∈ l.entries, e.fatOrder.orderID ≠ o.orderID :=
      fun l hl => hfresh l (List.mem_cons_of_mem lvl hl)
    have hsr : ∀ l ∈ rest, l.price = o.price ∨ Precision.equal l.price o.price = false :=
      fun l hl => hsep l (List.mem_cons_of_mem lvl hl)
    have hvr : ∀ l ∈ rest, Precision.EPSILON ≤ l.totalVolume :=
      fun l hl => hvol l (List.mem_cons_of_mem lvl hl)
    have hnr : ∀ l ∈ rest, l.entries ≠ [] :=
      fun l hl => hne l (List.mem_cons_of_mem lvl hl)
    by_cases hb : Core.levelBefore o.side lvl.price o.price = true
    · simp only [Core.placeSide, if_pos hb, Core.cancelSide]
      rw [ih hfr hsr hvr hnr]
    · by_cases heq : Precision.equal lvl.price o.price = true
      · have hpe : lvl.price = o.price := by
          rcases hsep lvl (List.mem_cons_self lvl rest) with h | h
          · exact h
          · rw [heq] at h
            cases h
        have hnomatch : ∀ e ∈ lvl.entries,
            ¬ (fun e => decide (e.fatOrder.orderID = o.orderID)) e = true := by
          intro e he
          simp only [decide_eq_true_eq]
          exact hfresh lvl (List.mem_cons_self lvl rest) e he
        simp only [Core.placeSide, if_neg hb, if_pos heq, Core.cancelSide]
        rw [find?_append_of_none _ _ _ hnomatch, List.find?_cons_of_pos _ (by simp)]
        dsimp only
        rw [List.eraseP_append_right _ hnomatch, List.eraseP_cons_of_pos (by simp),
          List.append_nil]
        have hemp' : ¬ lvl.entries.isEmpty = true := by
          rw [List.isEmpty_iff]
          exact hne lvl (List.mem_cons_self lvl rest)
        rw [if_neg hemp']
        have hvv : Precision.subtract_or_zero
            (lvl.totalVolume + o.remainingQuantity) o.remainingQuantity =
            lvl.totalVolume := by
          rw [Precision.subtract_or_zero, if_neg]
          · ring
          · push_neg
            have := hvol lvl (List.mem_cons_self lvl rest)
            linarith
        rw [hvv]
      · simp only [Core.placeSide, if_neg hb, if_neg heq]
        exact cancelSide_newLevel o (lvl :: rest)

/-- Claim C4 (amended): when a LIMIT taker rests without matching (its
sweep breaks immediately) on a side whose levels are nonempty, have volume
at least EPSILON, and whose prices are either exactly the order's price or
not within EPSILON of it, placing and then cancelling it by identifier
restores the side exactly, and the shadow sequence advances by exactly 1 —
the placement's refresh is the only one, `cancelById` performs none. -/
theorem C4_place_cancel_restore (bk : Core.OrderBook) (taker : Core.Order) (eid : ℕ)
    (ht : taker.type = Core.OrderType.LIMIT)
    (hpos : Precision.isPositive taker.remainingQuantity = true)
    (hnc : Core.oppositeSide bk taker = [] ∨
      ∃ l ls, Core.oppositeSide bk taker = l :: ls ∧ Core.crossStop taker l.price = true)
    (hfresh : ∀ lvl ∈ Core.ownSide bk taker, ∀ e ∈ lvl.entries,
      e.fatOrder.orderID ≠ taker.orderID)
    (hsep : ∀ lvl ∈ Core.ownSide bk taker,
      lvl.price = taker.price ∨ Precision.equal lvl.price taker.price = false)
    (hvol : ∀ lvl ∈ Core.ownSide bk taker, Precision.EPSILON ≤ lvl.totalVolume)
    (hne : ∀ lvl ∈ Core.ownSide bk taker, lvl.entries ≠ []) :
    (Core.execute bk taker eid).1.shadow.sequence = bk.shadow.sequence + 1 ∧
    ∃ bk2 : Core.OrderBook,
      Core.cancelById (Core.execute bk taker eid).1 taker.orderID =
        some (taker.remainingQuantity, bk2) ∧
      bk2.bids = bk.bids ∧ bk2.asks = bk.asks ∧
      bk2.shadow.sequence = bk.shadow.sequence + 1 := by
  cases hs : taker.side
  case BUY =>
    have hnc' : bk.asks = [] ∨
        ∃ l ls, bk.asks = l :: ls ∧ Core.crossStop taker l.price = true := by
      simpa only [Core.oppositeSide, hs] using hnc
    have hnoop := matchAgainstBook_noop taker bk.idToLocation eid
      bk.lastMatchedPrice bk.asks hnc'
    have hred : Core.execute bk taker eid =
        (Core.publishShadow (Core.placeOrder bk taker), taker,
         ⟨taker.orderID, taker.remainingQuantity, []⟩, eid) := by
      simp only [Core.execute, hs, hnoop]
      rw [if_pos hpos, if_pos ht]
    have hown : Core.ownSide bk taker = bk.bids := by
      simp only [Core.ownSide, hs]
    rw [hown] at hfresh hsep hvol hne
    have hcs := cancelSide_placeSide taker bk.bids hfresh hsep hvol hne
    have hplace : Core.placeOrder bk taker =
        { bk with
          bids := Core.placeSide taker bk.bids
          idToLocation := fun i => if i = taker.orderID then
            some ⟨taker.price, taker.side⟩ else bk.idToLocation i } := by
      simp only [Core.placeOrder, hs]
    constructor
    · rw [hred, hplace]
      rfl
    · refine ⟨{ bids := bk.bids
                asks := bk.asks
                idToLocation := fun x => if x = taker.orderID then none else
                  (if x = taker.orderID then some ⟨taker.price, taker.side⟩
                    else bk.idToLocation x)
                shadow := ⟨(Core.placeSide taker bk.bids).map Core.toBookLevel,
                  bk.asks.map Core.toBookLevel, bk.shadow.sequence + 1⟩
                lastMatchedPrice := bk.lastMatchedPrice }, ?_, rfl, rfl, rfl⟩
      rw [hred, hplace]
      simp only [Core.cancelById, Core.publishShadow, if_true]
      rw [hs] at hcs
      simp only [hs]
      rw [hcs]
  case SELL =>
    have hnc' : bk.bids = [] ∨
        ∃ l ls, bk.bids = l :: ls ∧ Core.crossStop taker l.price = true := by
      simpa only [Core.oppositeSide, hs] using hnc
    have hnoop := matchAgainstBook_noop taker bk.idToLocation eid
      bk.lastMatchedPrice bk.bids hnc'
    have hred : Core.execute bk taker eid =
        (Core.publishShadow (Core.placeOrder bk taker), taker,
         ⟨taker.orderID, taker.remainingQuantity, []⟩, eid) := by
      simp only [Core.execute, hs, hnoop]
      rw [if_pos hpos, if_pos ht]
    have hown : Core.ownSide bk taker = bk.asks := by
      simp only [Core.ownSide, hs]
    rw [hown] at hfresh hsep hvol hne
    have hcs := cancelSide_placeSide taker bk.asks hfresh hsep hvol hne
    have hplace : Core.placeOrder bk taker =
        { bk with
          asks := Core.placeSide taker bk.asks
          idToLocation := fun i => if i = taker.orderID then
            some ⟨taker.price, taker.side⟩ else bk.idToLocation i } := by
      simp only [Core.placeOrder, hs]
    constructor
    · rw [hred, hplace]
      rfl
    · refine ⟨{ bids := bk.bids
                asks := bk.asks
                idToLocation := fun x => if x = taker.orderID then none else
                  (if x = taker.orderID then some ⟨taker.price, taker.side⟩
                    else bk.idToLocation x)
                shadow := ⟨bk.bids.map Core.toBookLevel,
                  (Core.placeSide taker bk.asks).map Core.toBookLevel,
                  bk.shadow.sequence + 1⟩
                lastMatchedPrice := bk.lastMatchedPrice }, ?_, rfl, rfl, rfl⟩
      rw [hred, hplace]
      simp only [Core.cancelById, Core.publishShadow, if_true]
      rw [hs] at hcs
      simp only [hs]
      rw [hcs]

/-- Claim C4, witness for the amended theorem: place-then-cancel of a
limit buy on the empty book advances the shadow sequence by exactly 1. -/
theorem C4_place_cancel_restore_witness :
    Precision.isPositive (1 : ℚ) = true ∧
    (Core.execute ⟨[], [], fun _ => none, ⟨[], [], 0⟩, 0⟩
        ⟨5, 10, 1, 1, 0, .BUY, .LIMIT, .ACTIVE⟩ 0).1.shadow.sequence =
      (⟨[], [], fun _ => none, ⟨[], [], 0⟩, 0⟩ : Core.OrderBook).shadow.sequence + 1 := by
  have hp : Precision.isPositive
      ((⟨5, 10, 1, 1, 0, .BUY, .LIMIT, .ACTIVE⟩ : Core.Order).remainingQuantity) = true := by
    norm_num [Precision.isPositive, Precision.EPSILON]
  exact ⟨hp,
    (C4_place_cancel_restore ⟨[], [], fun _ => none, ⟨[], [], 0⟩, 0⟩
      ⟨5, 10, 1, 1, 0, .BUY, .LIMIT, .ACTIVE⟩ 0 rfl hp (Or.inl rfl)
      (fun lvl h => absurd h (List.not_mem_nil lvl))
      (fun lvl h => absurd h (List.not_mem_nil lvl))
      (fun lvl h => absurd h (List.not_mem_nil lvl))
      (fun lvl h => absurd h (List.not_mem_nil lvl))).1⟩

/-- A successful book cancel erases the order's id from the location
index, so book-level lookups and repeated cancels fail afterwards. -/
theorem cancelById_erases_id (bk : Core.OrderBook) (id : ℕ) (q : ℚ)
    (bk' : Core.OrderBook) (h : Core.cancelById bk id = some (q, bk')) :
    bk'.idToLocation id = none ∧
    Core.getRemainingQty bk' id = none ∧
    Core.cancelById bk' id = none := by
  have hloc : bk'.idToLocation id = none := by
    simp only [Core.cancelById] at h
    cases hl : bk.idToLocation id with
    | none =>
      rw [hl] at h
      cases h
    | some loc =>
      rw [hl] at h
      dsimp only at h
      cases hcs : Core.cancelSide loc.side loc.price id
          (match loc.side with
           | Core.Side.BUY => bk.bids
           | Core.Side.SELL => bk.asks) with
      | none =>
        rw [hcs] at h
        cases h
      | some p =>
        rw [hcs] at h
        dsimp only at h
        injection h with h1
        have hb : bk' = _ := (congrArg Prod.snd h1).symm
        rw [hb]
        simp
  refine ⟨hloc, ?_, ?_⟩
  · simp only [Core.getRemainingQty, hloc]
  · simp only [Core.cancelById, hloc]

/-- Claim C6 (amended): a successful CANCEL removes the order's entry from
its price level and from the book's location map in one step, so book-level
lookups (getRemainingQty) and book-level cancels fail afterwards; but the
engine registry retains the order object with status CANCELLED: a second
cancel of the same identifier fails with ALREADY_TERMINAL (not a not-found
error) and getOrder still returns the terminal order. -/
theorem C6_cancel_terminal_retained (st : OldSub.TradingEngine) (id : ℕ)
    (h : (OldSub.internalCancel st id).2.1 = OldSub.EngineStatusCode.OK) :
    ∃ (ord ord' : OldSub.EngOrder) (bk bk' : Core.OrderBook),
      st.idRegistry id = some ord ∧
      (OldSub.internalCancel st id).1.idRegistry id = some ord' ∧
      ord'.status = Core.OrderStatus.CANCELLED ∧
      st.symbolBooks ord.symbol = some bk ∧
      (OldSub.internalCancel st id).1.symbolBooks ord.symbol = some bk' ∧
      Core.cancelById bk id = some (ord'.remainingQuantity, bk') ∧
      bk'.idToLocation id = none ∧
      Core.getRemainingQty bk' id = none ∧
      Core.cancelById bk' id = none ∧
      OldSub.internalCancel (OldSub.internalCancel st id).1 id =
        ((OldSub.internalCancel st id).1,
         OldSub.EngineStatusCode.ALREADY_TERMINAL, "Already terminal") ∧
      OldSub.getOrder (OldSub.internalCancel st id).1 id =
        ((OldSub.internalCancel st id).1, OldSub.EngineStatusCode.OK,
         "Success", some ord') := by
  cases hreg : st.idRegistry id with
  | none =>
    simp only [OldSub.internalCancel, hreg] at h
    cases h
  | some ord =>
    by_cases hfin : OldSub.isFinished ord = true
    · simp only [OldSub.internalCancel, hreg, if_pos hfin] at h
      cases h
    · cases hbk : st.symbolBooks ord.symbol with
      | none =>
        simp only [OldSub.internalCancel, hreg, if_neg hfin, hbk] at h
        cases h
      | some bk =>
        cases hcb : Core.cancelById bk id with
        | none =>
          simp only [OldSub.internalCancel, hreg, if_neg hfin, hbk, hcb] at h
          cases h
        | some qbk =>
          have hred : OldSub.internalCancel st id =
              ({ idRegistry := fun x => if x = id then
                   some { ord with
                     status := Core.OrderStatus.CANCELLED
                     remainingQuantity := qbk.1 }
                   else st.idRegistry x
                 symbolBooks := fun s => if s = ord.symbol then some qbk.2
                   else st.symbolBooks s },
               OldSub.EngineStatusCode.OK, "Cancelled") := by
            simp only [OldSub.internalCancel, hreg, if_neg hfin, hbk, hcb]
          have hcb' : Core.cancelById bk id = some (qbk.1, qbk.2) := hcb
          have herase := cancelById_erases_id bk id qbk.1 qbk.2 hcb'
          refine ⟨ord,
            { ord with
              status := Core.OrderStatus.CANCELLED
              remainingQuantity := qbk.1 }, bk, qbk.2,
            rfl, ?_, rfl, hbk, ?_, hcb', herase.1, herase.2.1, herase.2.2, ?_, ?_⟩
          · rw [hred]
            simp
          · rw [hred]
            simp
          · rw [hred]
            simp [OldSub.internalCancel, OldSub.isFinished]
          · rw [hred]
            simp [OldSub.getOrder, OldSub.isFinished]

/-- Claim C6, counterexample: starting from `C6engine` (order 1 ACTIVE on
"IBM", resting in the book), cancelling order 1 succeeds; yet a second
cancel of the same identifier reports ALREADY_TERMINAL — not a not-found
error — and getOrder still returns the retained order with status OK, so
the registry did not drop the order in the same step. -/
theorem C6_counterexample :
    (OldSub.internalCancel C6engine 1).2.1 = OldSub.EngineStatusCode.OK ∧
    (OldSub.internalCancel (OldSub.internalCancel C6engine 1).1 1).2.1 =
      OldSub.EngineStatusCode.ALREADY_TERMINAL ∧
    (OldSub.internalCancel (OldSub.internalCancel C6engine 1).1 1).2.1 ≠
      OldSub.EngineStatusCode.ORDER_ID_NOT_FOUND ∧
    (OldSub.getOrder (OldSub.internalCancel C6engine 1).1 1).2.1 =
      OldSub.EngineStatusCode.OK ∧
    (OldSub.getOrder (OldSub.internalCancel C6engine 1).1 1).2.2.2 ≠ none := by
  have hred : OldSub.internalCancel C6engine 1 =
      ({ idRegistry := fun x => if x = 1 then
           some ⟨1, "IBM", Core.OrderStatus.CANCELLED, 5⟩
           else C6engine.idRegistry x
         symbolBooks := fun s => if s = "IBM" then
           some { bids := [], asks := []
                  idToLocation := fun x => if x = 1 then none
                    else C6book.idToLocation x
                  shadow := ⟨[], [], 0⟩
                  lastMatchedPrice := 0 }
           else C6engine.symbolBooks s },
       OldSub.EngineStatusCode.OK, "Cancelled") := by
    norm_num [C6engine, C6book, OldSub.internalCancel, OldSub.isFinished,
      Core.cancelById, Core.cancelSide, Core.levelBefore, Precision.equal,
      Precision.isEqual, Precision.EPSILON, List.find?]
  refine ⟨by rw [hred], ?_, ?_, ?_, ?_⟩ <;>
    rw [hred] <;>
    simp [OldSub.internalCancel, OldSub.getOrder, OldSub.isFinished]

/-- Claim C6 (amended), witness: the theorem instantiated at `C6engine`
and order identifier 1. -/
theorem C6_cancel_terminal_retained_witness :
    (OldSub.internalCancel C6engine 1).2.1 = OldSub.EngineStatusCode.OK ∧
    (∃ (ord ord' : OldSub.EngOrder) (bk bk' : Core.OrderBook),
      C6engine.idRegistry 1 = some ord ∧
      (OldSub.internalCancel C6engine 1).1.idRegistry 1 = some ord' ∧
      ord'.status = Core.OrderStatus.CANCELLED ∧
      C6engine.symbolBooks ord.symbol = some bk ∧
      (OldSub.internalCancel C6engine 1).1.symbolBooks ord.symbol = some bk' ∧
      Core.cancelById bk 1 = some (ord'.remainingQuantity, bk') ∧
      bk'.idToLocation 1 = none ∧
      Core.getRemainingQty bk' 1 = none ∧
      Core.cancelById bk' 1 = none ∧
      OldSub.internalCancel (OldSub.internalCancel C6engine 1).1 1 =
        ((OldSub.internalCancel C6engine 1).1,
         OldSub.EngineStatusCode.ALREADY_TERMINAL, "Already terminal") ∧
      OldSub.getOrder (OldSub.internalCancel C6engine 1).1 1 =
        ((OldSub.internalCancel C6engine 1).1, OldSub.EngineStatusCode.OK,
         "Success", some ord')) := by
  have h : (OldSub.internalCancel C6engine 1).2.1 =
      OldSub.EngineStatusCode.OK := by
    norm_num [C6engine, C6book, OldSub.internalCancel, OldSub.isFinished,
      Core.cancelById, Core.cancelSide, Core.levelBefore, Precision.equal,
      Precision.isEqual, Precision.EPSILON, List.find?]
  exact ⟨h, C6_cancel_terminal_retained C6engine 1 h⟩
